import Mathlib

/-!
Multi-currency account ledger (src/tp1.cpp, src/tp1ex3.cpp).

A shallow embedding of the classes `Currency`, `TransactionValidator`,
`Account` and `AccountManager` of `src/tp1.cpp`, of the functions of
`src/tp1ex3.cpp` that differ from them, and of the text files that the
program writes with `fprintf` and reads with `fscanf`.

Modelling conventions.

* `double` is modelled by the exact rationals `ℚ`: every property below is a
  statement over exact arithmetic (no rounding, no NaN, no infinities).
* `std::vector<T>` is a `List T` (allocation never fails); `v[i]` is
  `List.getD v i 0` and the store `v[i] = x` is `List.set v i x`.  Both
  agree with the C++ semantics whenever `i` is in range, which is the case in every account whose two vectors have
  the same length (`Account.WF`).
* A member function that mutates `*this` and may throw is a function from the
  state before the call to an `Outcome`: the state after the call, and the
  exception that left the call, if any.  The state after a throw is the state
  of the object at the moment of the `throw` statement, as in C++.
* Exceptions are identified by their message (`TxError`, `MgrError`).
* `Account.transfer` covers the call where `toAccount` is an object other
  than `*this`, `Account.transferSelf` the call where it is `*this`; `step`
  covers both cases.
* A file is the list of its characters, and `fscanf` is modelled after the
  C standard and the GNU C library.  Undefined behaviour of `fscanf` is the
  result `none`, and so is a number read that is an infinity or a NaN; the
  value of a local variable that `fscanf` did not store into is arbitrary
  and is a parameter (`Stale`).
-/

namespace Tp1

/-! ## Currency -/

/-- The class `Currency`: a code and a conversion rate to the base currency. -/
structure Currency where
  code : String
  conversionRateToBase : ℚ
  deriving DecidableEq

namespace Currency

/-- The method `Currency::convertToBase`: `amount * conversionRateToBase`. -/
def convertToBase (c : Currency) (amount : ℚ) : ℚ :=
  amount * c.conversionRateToBase

/-- The method `Currency::convertFromBase`: `amount / conversionRateToBase`. -/
def convertFromBase (c : Currency) (amount : ℚ) : ℚ :=
  amount / c.conversionRateToBase

/-- The method `Currency::getCode`. -/
def getCode (c : Currency) : String :=
  c.code

end Currency

/-! ## Exceptions -/

/-- The exceptions thrown by `TransactionValidator` and `Account`, one
constructor per message of `src/tp1.cpp`. -/
inductive TxError where
  /-- The message "Deposit amount must be positive." -/
  | depositNotPositive
  /-- The message "Withdraw amount must be positive." -/
  | withdrawNotPositive
  /-- The message "Transfer amount must be positive." -/
  | transferNotPositive
  /-- The message "Insufficient funds." -/
  | insufficientFunds
  /-- The message "Currency not found in account." -/
  | currencyNotFound
  deriving DecidableEq

namespace TxError

/-- The invalid-amount errors: the three "... amount must be positive."
messages. -/
def isInvalidAmount : TxError → Bool
  | depositNotPositive => true
  | withdrawNotPositive => true
  | transferNotPositive => true
  | insufficientFunds => false
  | currencyNotFound => false

end TxError

/-! ## TransactionValidator -/

/-- The method `TransactionValidator::validateDeposit`; `none` means that the
call returns normally. -/
def validateDeposit (amount : ℚ) : Option TxError :=
  if amount ≤ 0 then some TxError.depositNotPositive else none

/-- The method `TransactionValidator::validateWithdraw`: positivity of the
amount is tested first, then sufficiency of the balance. -/
def validateWithdraw (balance amount : ℚ) : Option TxError :=
  if amount ≤ 0 then some TxError.withdrawNotPositive
  else if balance < amount then some TxError.insufficientFunds
  else none

/-- The method `TransactionValidator::validateTransfer`.  It is declared in
`src/tp1.cpp` but no function of that file calls it. -/
def validateTransfer (amount : ℚ) : Option TxError :=
  if amount ≤ 0 then some TxError.transferNotPositive else none

/-! ## Account -/

/-- The data members of the class `Account` (the validator has no state). -/
structure Account where
  owner : String
  id : Int
  balances : List ℚ
  currencies : List Currency
  deriving DecidableEq

/-- The state of an account after a call, and the exception that left the
call (`none` when the call returned normally). -/
structure Outcome where
  acct : Account
  err : Option TxError
  deriving DecidableEq

namespace Account

/-- The class invariant of `Account`: one balance per currency. -/
def WF (a : Account) : Prop :=
  a.balances.length = a.currencies.length

instance (a : Account) : Decidable a.WF := by
  unfold WF
  exact inferInstance

/-- The constructor `Account(int id, const std::string& owner)`. -/
def new (id : Int) (owner : String) : Account :=
  { owner := owner, id := id, balances := [], currencies := [] }

/-- The method `Account::addCurrency`: both vectors get one more entry. -/
def addCurrency (a : Account) (currency : Currency) : Account :=
  { a with currencies := a.currencies ++ [currency], balances := a.balances ++ [0] }

/-- The search loop shared by `deposit` and `withdraw`,
`for (i = 0; i < currencies.size(); ++i) if (currencies[i].getCode() == code)`,
started at index `i` with the currencies from `i` on still to visit.  It
returns the first index whose code equals `currencyCode`, with the currency
stored there, or `none` when the loop runs to its end. -/
def findFrom (currencyCode : String) : Nat → List Currency → Option (Nat × Currency)
  | _, [] => none
  | i, c :: rest =>
    if c.getCode = currencyCode then some (i, c) else findFrom currencyCode (i + 1) rest

/-- The search loop from index `0` over all the currencies of the account. -/
def find (a : Account) (currencyCode : String) : Option (Nat × Currency) :=
  findFrom currencyCode 0 a.currencies

/-- The method `Account::deposit`. -/
def deposit (a : Account) (amount : ℚ) (currencyCode : String) : Outcome :=
  match validateDeposit amount with
  | some e => { acct := a, err := some e }
  | none =>
    match a.find currencyCode with
    | some (i, c) =>
      { acct := { a with balances := a.balances.set i (a.balances.getD i 0 + c.convertToBase amount) },
        err := none }
    | none => { acct := a, err := some TxError.currencyNotFound }

/-- The method `Account::withdraw`. -/
def withdraw (a : Account) (amount : ℚ) (currencyCode : String) : Outcome :=
  match a.find currencyCode with
  | some (i, c) =>
    let baseAmount := c.convertToBase amount
    match validateWithdraw (a.balances.getD i 0) baseAmount with
    | some e => { acct := a, err := some e }
    | none =>
      { acct := { a with balances := a.balances.set i (a.balances.getD i 0 - baseAmount) },
        err := none }
  | none => { acct := a, err := some TxError.currencyNotFound }

end Account

/-- The states of the two accounts after a transfer, and the exception that
left the call, if any. -/
structure TransferOutcome where
  src : Account
  tgt : Account
  err : Option TxError
  deriving DecidableEq

/-- The method `Account::transfer`, called on `src` with `toAccount` a
different object `tgt`: `withdraw` on `src`, then, when that returned
normally, `deposit` on `tgt`. -/
def Account.transfer (src tgt : Account) (amount : ℚ) (fromCurrency toCurrency : String) :
    TransferOutcome :=
  let w := src.withdraw amount fromCurrency
  match w.err with
  | some e => { src := w.acct, tgt := tgt, err := some e }
  | none =>
    let d := tgt.deposit amount toCurrency
    { src := w.acct, tgt := d.acct, err := d.err }

/-- The method `Account::transfer` called with the object itself as
`toAccount`, `a.transfer(a, ...)`: `withdraw`, then, when that returned
normally, `deposit` on the state that `withdraw` left. -/
def Account.transferSelf (a : Account) (amount : ℚ) (fromCurrency toCurrency : String) :
    Outcome :=
  match (a.withdraw amount fromCurrency).err with
  | some e => { acct := (a.withdraw amount fromCurrency).acct, err := some e }
  | none => (a.withdraw amount fromCurrency).acct.deposit amount toCurrency

/-- The loop of `Account::display` from index `i` on: for each currency, its
code and `convertFromBase(balances[i])`. -/
def Account.displayFrom (balances : List ℚ) : Nat → List Currency → List (String × ℚ)
  | _, [] => []
  | i, c :: rest =>
    (c.getCode, c.convertFromBase (balances.getD i 0)) :: Account.displayFrom balances (i + 1) rest

/-- The balance lines that `Account::display` prints, in attachment order. -/
def Account.display (a : Account) : List (String × ℚ) :=
  Account.displayFrom a.balances 0 a.currencies

/-! ## The accounts of `main` -/

/-- The currency `usd` of `main`. -/
def usd : Currency := { code := "USD", conversionRateToBase := 1 }

/-- The currency `eur` of `main`: rate 1.1. -/
def eur : Currency := { code := "EUR", conversionRateToBase := 11 / 10 }

/-- The currency `gbp` of `main`: rate 1.3. -/
def gbp : Currency := { code := "GBP", conversionRateToBase := 13 / 10 }

/-- The account `account1` of `main` after its two `addCurrency` calls. -/
def alice : Account := ((Account.new 1 "Alice").addCurrency usd).addCurrency eur

/-- The account `account2` of `main` after its two `addCurrency` calls. -/
def bob : Account := ((Account.new 2 "Bob").addCurrency usd).addCurrency gbp

/-- The state of `account1` once `deposit(1000, "USD")` has run. -/
def aliceFunded : Account :=
  { owner := "Alice", id := 1, balances := [1000, 0], currencies := [usd, eur] }

/-! ## Further accounts used as concrete inputs -/

/-- An account holding one currency whose rate is `0`, built with the
constructor and `addCurrency`. -/
def zeroRateAccount : Account :=
  (Account.new 3 "Carol").addCurrency { code := "XXX", conversionRateToBase := 0 }

/-- An account whose USD balance is negative, as `Account::loadFromFile`
produces it from the record `4 Dave 1 / USD 1.00 / -10.00`. -/
def overdrawnAccount : Account :=
  { owner := "Dave", id := 4, balances := [-10], currencies := [usd] }

/-! ## The transactions of `main` -/

/-- The first transaction of `main`: `account1->deposit(1000, "USD")`. -/
def mainStep1 : Outcome := alice.deposit 1000 "USD"

/-- The second transaction of `main`: `account1->withdraw(100, "EUR")`. -/
def mainStep2 : Outcome := mainStep1.acct.withdraw 100 "EUR"

/-- The third transaction of `main`,
`account1->transfer(*account2, 200, "USD", "GBP")`, run on the state that
the second one leaves. -/
def mainStep3 : TransferOutcome := Account.transfer mainStep2.acct bob 200 "USD" "GBP"

/-! ## AccountManager -/

/-- The constant `MAX_ACCOUNTS`. -/
def MAX_ACCOUNTS : Nat := 50

/-- The exceptions thrown by `AccountManager`, one constructor per message. -/
inductive MgrError where
  /-- The message "Maximum accounts reached." (`std::overflow_error`). -/
  | maxAccountsReached
  /-- The message "Unable to open file for writing." -/
  | cannotOpenForWriting
  /-- The message "Unable to open file for reading." -/
  | cannotOpenForReading
  deriving DecidableEq

/-- The class `AccountManager`.  The list holds the objects that
`accounts[0]`, ..., `accounts[accountCount - 1]` point to, in that order; the
slots from `accountCount` on are never read. -/
structure AccountManager where
  accounts : List Account
  deriving DecidableEq

/-- The state of the manager after a call, and the exception that left the
call, if any. -/
structure MgrOutcome where
  mgr : AccountManager
  err : Option MgrError
  deriving DecidableEq

namespace AccountManager

/-- The data member `accountCount`. -/
def accountCount (m : AccountManager) : Nat :=
  m.accounts.length

/-- The constructor `AccountManager()`. -/
def new : AccountManager :=
  { accounts := [] }

/-- The method `AccountManager::addAccount`. -/
def addAccount (m : AccountManager) (account : Account) : MgrOutcome :=
  if m.accountCount ≥ MAX_ACCOUNTS then { mgr := m, err := some MgrError.maxAccountsReached }
  else { mgr := { accounts := m.accounts ++ [account] }, err := none }

/-- A sequence of `addAccount` calls, one per account of the list, in order;
a call that throws is followed by the next call. -/
def addAll (m : AccountManager) : List Account → AccountManager
  | [] => m
  | a :: rest => addAll (m.addAccount a).mgr rest

end AccountManager

/-! ## The variant of src/tp1ex3.cpp

The classes `currency`, `account` and `account_manager` of `src/tp1ex3.cpp`
have the data members of `Currency`, `Account` and `AccountManager`, and
`convert_to_base` is `convertToBase`; their states are values of the same
types.  No function of this variant throws, so a call is a function from the
state before it to the state after it. -/

namespace Ex3

/-- The method `transaction_validator::validate_deposit`: it returns, with
no effect, on both paths. -/
def validate_deposit (amount : ℚ) : Unit :=
  if amount ≤ 0 then () else ()

/-- The method `transaction_validator::validate_withdraw`: it returns, with
no effect, on all three paths. -/
def validate_withdraw (balance amount : ℚ) : Unit :=
  if amount ≤ 0 then () else if balance < amount then () else ()

/-- The method `transaction_validator::validate_transfer`. -/
def validate_transfer (amount : ℚ) : Unit :=
  if amount ≤ 0 then () else ()

/-- The search loop of `account::deposit` and `account::withdraw`, on the
member `code` of each currency. -/
def findFrom (currency_code : String) : Nat → List Currency → Option (Nat × Currency)
  | _, [] => none
  | i, c :: rest =>
    if c.code = currency_code then some (i, c) else findFrom currency_code (i + 1) rest

/-- The method `account::deposit`: after the call of the validator, the loop
adds `convert_to_base(amount)` at the first match; when the loop ends without
a match nothing happens. -/
def deposit (a : Account) (amount : ℚ) (currency_code : String) : Account :=
  match validate_deposit amount with
  | () =>
    match findFrom currency_code 0 a.currencies with
    | some (i, c) =>
      { a with balances := a.balances.set i (a.balances.getD i 0 + c.convertToBase amount) }
    | none => a

/-- The method `account::withdraw`. -/
def withdraw (a : Account) (amount : ℚ) (currency_code : String) : Account :=
  match findFrom currency_code 0 a.currencies with
  | some (i, c) =>
    let base_amount := c.convertToBase amount
    match validate_withdraw (a.balances.getD i 0) base_amount with
    | () => { a with balances := a.balances.set i (a.balances.getD i 0 - base_amount) }
  | none => a

/-- The method `account::transfer`, called on `src` with `to_account` a
different object `tgt`; the result is the pair of the two states. -/
def transfer (src tgt : Account) (amount : ℚ) (from_currency to_currency : String) :
    Account × Account :=
  match validate_transfer amount with
  | () => (withdraw src amount from_currency, deposit tgt amount to_currency)

/-- The method `account_manager::add_account`: a full ledger is left as it
is, without any signal. -/
def add_account (m : AccountManager) (account : Account) : AccountManager :=
  if m.accountCount ≥ MAX_ACCOUNTS then m else { accounts := m.accounts ++ [account] }

end Ex3

/-! ## Sequences of calls on several accounts -/

/-- A call of a mutating method of `Account`; the accounts of the program are
numbered, `k` is the object the method is called on and `l` the argument
`toAccount` of `transfer` (`l = k` is the call `a.transfer(a, ...)`). -/
inductive Call where
  | addCurrency (k : Nat) (currency : Currency)
  | deposit (k : Nat) (amount : ℚ) (currencyCode : String)
  | withdraw (k : Nat) (amount : ℚ) (currencyCode : String)
  | transfer (k l : Nat) (amount : ℚ) (fromCurrency toCurrency : String)

/-- The currency that an `addCurrency` call attaches has a positive rate. -/
def Call.RateOk : Call → Prop
  | Call.addCurrency _ c => 0 < c.conversionRateToBase
  | _ => True

/-- The effect of one call on the accounts of the program, whether the call
returns or throws (the caller catches the exception and goes on).  A call on
a number that names no account does nothing.  For `transfer`, the body
`withdraw(...); toAccount.deposit(...)` runs on the objects themselves, so
`toAccount` is read after `withdraw` has written. -/
def step (pool : List Account) : Call → List Account
  | Call.addCurrency k c =>
    match pool[k]? with
    | some a => pool.set k (a.addCurrency c)
    | none => pool
  | Call.deposit k amount code =>
    match pool[k]? with
    | some a => pool.set k (a.deposit amount code).acct
    | none => pool
  | Call.withdraw k amount code =>
    match pool[k]? with
    | some a => pool.set k (a.withdraw amount code).acct
    | none => pool
  | Call.transfer k l amount fromC toC =>
    match pool[k]? with
    | none => pool
    | some a =>
      match (a.withdraw amount fromC).err with
      | some _ => pool.set k (a.withdraw amount fromC).acct
      | none =>
        match (pool.set k (a.withdraw amount fromC).acct)[l]? with
        | some b =>
          (pool.set k (a.withdraw amount fromC).acct).set l (b.deposit amount toC).acct
        | none => pool.set k (a.withdraw amount fromC).acct

/-- A sequence of calls, in order. -/
def run (pool : List Account) : List Call → List Account
  | [] => pool
  | c :: rest => run (step pool c) rest

/-- Newly constructed accounts, one per pair of an id and an owner. -/
def newAccounts (people : List (Int × String)) : List Account :=
  people.map (fun p => Account.new p.1 p.2)

/-- An account with one balance per currency, positive rates and no negative
balance. -/
def Account.Sound (a : Account) : Prop :=
  a.WF ∧ (∀ c ∈ a.currencies, 0 < c.conversionRateToBase) ∧ ∀ b ∈ a.balances, 0 ≤ b

/-- The calls of `main` on `account1` (number `0`) and `account2` (number
`1`), in order. -/
def mainCalls : List Call :=
  [Call.addCurrency 0 usd, Call.addCurrency 0 eur, Call.addCurrency 1 usd,
    Call.addCurrency 1 gbp, Call.deposit 0 1000 "USD", Call.withdraw 0 100 "EUR",
    Call.transfer 0 1 200 "USD" "GBP"]

/-! ## Text files: `fprintf`

The content of a file is a list of characters.  The functions below are the
conversions of `fprintf` that the program uses, after the C standard:
`%d`, `%zu`, `%s` and `%.2f`.  With `double` modelled by `ℚ`, `%.2f` rounds
the exact value to the nearest multiple of `1/100`, a tie going to the even
multiple. -/

/-- The character of a decimal digit `d < 10`. -/
def digitChar (d : Nat) : Char :=
  Char.ofNat (48 + d)

/-- The decimal digits of a number, most significant first, as `%zu` (and
`%d` on a non-negative value) prints them. -/
def natDigits (n : Nat) : List Char :=
  if n < 10 then [digitChar n] else natDigits (n / 10) ++ [digitChar (n % 10)]
termination_by n
decreasing_by omega

/-- The conversion `%d`. -/
def fmtInt (z : Int) : List Char :=
  if z < 0 then '-' :: natDigits z.natAbs else natDigits z.natAbs

/-- The characters that `%s` prints for `s.c_str()`: those before the first
NUL character. -/
def cstr (s : String) : List Char :=
  s.data.takeWhile (fun c => c != '\x00')

/-- The integer nearest to `x`, a tie going to the even one. -/
def roundHalfEven (x : ℚ) : Int :=
  if x - ⌊x⌋ < 1 / 2 then ⌊x⌋
  else if 1 / 2 < x - ⌊x⌋ then ⌊x⌋ + 1
  else if ⌊x⌋ % 2 = 0 then ⌊x⌋ else ⌊x⌋ + 1

/-- The value that `%.2f` shows: `x` rounded to two decimal places. -/
def round2 (x : ℚ) : ℚ :=
  (roundHalfEven (x * 100) : ℚ) / 100

/-- The conversion `%.2f`: a minus sign for a negative value, the integer
part, a point and two decimals. -/
def fmtFixed2 (x : ℚ) : List Char :=
  (if x < 0 then ['-'] else []) ++
    natDigits ((roundHalfEven (x * 100)).natAbs / 100) ++
    ['.', digitChar ((roundHalfEven (x * 100)).natAbs % 100 / 10),
      digitChar ((roundHalfEven (x * 100)).natAbs % 10)]

/-- The method `Currency::saveToFile`: the characters of
`fprintf(file, "%s %.2f\n", code.c_str(), conversionRateToBase)`. -/
def Currency.saveToFile (c : Currency) : List Char :=
  cstr c.code ++ [' '] ++ fmtFixed2 c.conversionRateToBase ++ ['\n']

/-- The loop of `Account::saveToFile` from index `i` on: for each currency
its own line, then the line of `balances[i]`. -/
def Account.saveFrom (balances : List ℚ) : Nat → List Currency → List Char
  | _, [] => []
  | i, c :: rest =>
    c.saveToFile ++ (fmtFixed2 (balances.getD i 0) ++ ['\n'])
      ++ Account.saveFrom balances (i + 1) rest

/-- The method `Account::saveToFile`: the line of
`fprintf(file, "%d %s %zu\n", id, owner.c_str(), currencies.size())`, then
the loop. -/
def Account.saveToFile (a : Account) : List Char :=
  fmtInt a.id ++ [' '] ++ cstr a.owner ++ [' '] ++ natDigits a.currencies.length ++ ['\n']
    ++ Account.saveFrom a.balances 0 a.currencies

/-- The loop of `AccountManager::saveAccountsToFile`. -/
def saveAll : List Account → List Char
  | [] => []
  | a :: rest => a.saveToFile ++ saveAll rest

/-- The method `AccountManager::saveAccountsToFile`: the content of the file
after the call, given that `fopen` succeeded (the file is opened with "w", so
what it held before is gone). -/
def AccountManager.saveAccountsToFile (m : AccountManager) : List Char :=
  saveAll m.accounts

/-! ## Text files: `fscanf` and `feof`

A file open for reading is the list of the characters not yet read and the
end-of-file indicator, which a read sets when it finds no character left.
The conversions follow the C standard: each of `%d`, `%s`, `%zu`, `%lf` first
skips white space, then reads the longest run of characters that fits, and
leaves the character after it unread; a conversion that finds the end of the
file or no fitting character fails and stores nothing.  `int` has 32 bits and
`size_t` 64.  Where the C standard leaves the behaviour undefined (a token
too long for its buffer, a number out of the range of its type) the result is
`Scan.undef`.  The conversion `%lf` is modelled as the GNU C library carries
it out, which is what the C standard says but for the corner cases named at
`scanMantissa`; the value stored for an infinity or a NaN is `none`: the
model of `double` has no such value. -/

/-- A file open for reading. -/
structure FileIn where
  rest : List Char
  eof : Bool
  deriving DecidableEq

/-- The result of one conversion: the value stored and the file after it; a
failure, which stores nothing; or undefined behaviour. -/
inductive Scan (α : Type) where
  | ok (v : α) (f : FileIn)
  | fail (f : FileIn)
  | undef

/-- The function `isspace` in the C locale. -/
def isSpace (c : Char) : Bool :=
  c == ' ' || c == '\t' || c == '\n' || c == '\x0b' || c == '\x0c' || c == '\r'

/-- The function `isdigit`. -/
def isDigit (c : Char) : Bool :=
  48 ≤ c.toNat && c.toNat ≤ 57

/-- The value of a digit character. -/
def digitVal (c : Char) : Nat :=
  c.toNat - 48

/-- The number that a run of decimal digits denotes. -/
def digitsValue (ds : List Char) : Nat :=
  ds.foldl (fun acc c => acc * 10 + digitVal c) 0

/-- White space is skipped; the indicator is set when the end is reached. -/
def skipSpace (f : FileIn) : FileIn :=
  { rest := f.rest.dropWhile isSpace, eof := f.eof || (f.rest.dropWhile isSpace).isEmpty }

/-- The longest run of characters that satisfy `p` is read; the indicator is
set when the run goes to the end of the file. -/
def takeRun (p : Char → Bool) (f : FileIn) : List Char × FileIn :=
  (f.rest.takeWhile p,
    { rest := f.rest.dropWhile p, eof := f.eof || (f.rest.dropWhile p).isEmpty })

/-- An optional sign is read: whether it was a minus, and the file after
it. -/
def takeSign (f : FileIn) : Bool × FileIn :=
  match f.rest with
  | '-' :: r => (true, { rest := r, eof := f.eof })
  | '+' :: r => (false, { rest := r, eof := f.eof })
  | _ => (false, f)

/-- The conversion `%s` into a buffer of `cap` characters, read back as a
C string (up to the first NUL). -/
def scanStr (cap : Nat) (f : FileIn) : Scan String :=
  if (skipSpace f).rest.isEmpty then Scan.fail (skipSpace f)
  else
    let r := takeRun (fun c => !isSpace c) (skipSpace f)
    if cap ≤ (String.mk r.1).utf8ByteSize then Scan.undef
    else Scan.ok (String.mk (r.1.takeWhile (fun c => c != '\x00'))) r.2

/-- The conversion `%d` into an `int`. -/
def scanInt (f : FileIn) : Scan Int :=
  if (skipSpace f).rest.isEmpty then Scan.fail (skipSpace f)
  else
    let s := takeSign (skipSpace f)
    let r := takeRun isDigit s.2
    if r.1.isEmpty then Scan.fail r.2
    else
      let z : Int := if s.1 then -(digitsValue r.1 : Int) else (digitsValue r.1 : Int)
      if -2147483648 ≤ z ∧ z ≤ 2147483647 then Scan.ok z r.2 else Scan.undef

/-- The conversion `%zu` into a `size_t`; a value written with a minus sign
is negated in the unsigned type. -/
def scanSize (f : FileIn) : Scan Nat :=
  if (skipSpace f).rest.isEmpty then Scan.fail (skipSpace f)
  else
    let s := takeSign (skipSpace f)
    let r := takeRun isDigit s.2
    if r.1.isEmpty then Scan.fail r.2
    else if 18446744073709551616 ≤ digitsValue r.1 then Scan.undef
    else if s.1 then Scan.ok ((18446744073709551616 - digitsValue r.1) % 18446744073709551616) r.2
    else Scan.ok (digitsValue r.1) r.2

/-- The first character of the rest of the file is one of `cs`. -/
def nextIn (cs : List Char) (f : FileIn) : Bool :=
  match f.rest with
  | c :: _ => cs.contains c
  | [] => false

/-- The function `isxdigit`. -/
def isHexDigit (c : Char) : Bool :=
  isDigit c || (97 ≤ c.toNat && c.toNat ≤ 102) || (65 ≤ c.toNat && c.toNat ≤ 70)

/-- The value of a hexadecimal digit character. -/
def hexVal (c : Char) : Nat :=
  if isDigit c then c.toNat - 48 else if 97 ≤ c.toNat then c.toNat - 87 else c.toNat - 55

/-- The number that a run of hexadecimal digits denotes. -/
def hexValue (ds : List Char) : Nat :=
  ds.foldl (fun acc c => acc * 16 + hexVal c) 0

/-- The function `tolower` on the letters `A` to `Z`. -/
def toLower (c : Char) : Char :=
  if 65 ≤ c.toNat ∧ c.toNat ≤ 90 then Char.ofNat (c.toNat + 32) else c

/-- The characters of the file are read one after the other as long as they
spell the word `w` (given in lower case), whatever their case: whether the
whole word was read, and the file after the last character read.  A character
that does not fit has been read and is not put back; the indicator is set
when the file ends inside the word. -/
def matchWord : List Char → FileIn → Bool × FileIn
  | [], f => (true, f)
  | w :: ws, f =>
    match f.rest with
    | [] => (false, { rest := [], eof := true })
    | c :: r =>
      if toLower c = w then matchWord ws { rest := r, eof := f.eof }
      else (false, { rest := r, eof := f.eof })

/-- The next character is read and put back: the indicator is set when
there is none. -/
def peekChar (f : FileIn) : FileIn :=
  { rest := f.rest, eof := f.eof || f.rest.isEmpty }

/-- The file after its first character. -/
def dropChar (f : FileIn) : FileIn :=
  { rest := f.rest.tail, eof := f.eof }

/-- The optional exponent part of a number, introduced by one of the
characters `marks` (`e`, `E` for a decimal number, `p`, `P` for a hexadecimal
one): the mark, an optional sign and a run of decimal digits are read.  The
result is the exponent, and the file after that part; the exponent is `0`
when there is no such part, and also when the mark and the sign are followed
by no digit (the C library then converts the number before the mark). -/
def scanExponent (marks : List Char) (f : FileIn) : Int × FileIn :=
  if nextIn marks f then
    (if (takeSign (dropChar f)).1
      then -(digitsValue (takeRun isDigit (takeSign (dropChar f)).2).1 : Int)
      else (digitsValue (takeRun isDigit (takeSign (dropChar f)).2).1 : Int),
      (takeRun isDigit (takeSign (dropChar f)).2).2)
  else (0, f)

/-- The digits after an optional point, read with `p`: the run of digits
(empty when there is no point) and the file after it. -/
def takeFraction (p : Char → Bool) (f : FileIn) : List Char × FileIn :=
  match f.rest with
  | '.' :: r => takeRun p { rest := r, eof := f.eof }
  | _ => ([], f)

/-- The value of a number with the sign `neg`, the magnitude `v` and the
exponent `e` to the base `b`. -/
def scaled (neg : Bool) (v : ℚ) (b : ℚ) (e : Int) : ℚ :=
  if neg then -(v * b ^ e) else v * b ^ e

/-- The part of the conversion `%lf` after the sign, `neg` telling whether
the sign was a minus, as the GNU C library (version 2.36) carries it out: the
characters that can belong to a number are collected, and `strtod` converts
what was collected.

* `nan`, in any case: a NaN.  A parenthesis after it is left unread.
* `inf` or `infinity`, in any case: an infinity.  After `inf` the next
  character is looked at; an `i` there must start `inity`.
* `0x` or `0X`: a hexadecimal number, made of hexadecimal digits, an optional
  point with more hexadecimal digits and, when there was a digit, an optional
  exponent of two after `p` or `P`.  Without any digit the conversion fails,
  unless a point was read: then `strtod` converts the `0` before the `x`.
* Otherwise a decimal number: digits, an optional point with more digits and,
  when there was a digit, an optional exponent of ten after `e` or `E`.
  Without any digit the conversion fails.

The value stored is `none` for an infinity or a NaN.  ISO C differs from this
in corner cases only: it has a matching failure where an exponent mark is
followed by no digit, and for `0x.`; it makes `nan(...)` part of the number;
and it leaves unread the character that breaks off `nan` or `infinity`. -/
def scanMantissa (neg : Bool) (f : FileIn) : Scan (Option ℚ) :=
  if nextIn ['n', 'N'] f then
    if (matchWord "nan".data f).1 then Scan.ok none (matchWord "nan".data f).2
    else Scan.fail (matchWord "nan".data f).2
  else if nextIn ['i', 'I'] f then
    if (matchWord "inf".data f).1 then
      if nextIn ['i', 'I'] (matchWord "inf".data f).2 then
        if (matchWord "inity".data (matchWord "inf".data f).2).1 then
          Scan.ok none (matchWord "inity".data (matchWord "inf".data f).2).2
        else Scan.fail (matchWord "inity".data (matchWord "inf".data f).2).2
      else Scan.ok none (peekChar (matchWord "inf".data f).2)
    else Scan.fail (matchWord "inf".data f).2
  else
    let ip := takeRun isDigit f
    if ip.1 = ['0'] ∧ nextIn ['x', 'X'] ip.2 then
      let hi := takeRun isHexDigit (dropChar ip.2)
      let hf := takeFraction isHexDigit hi.2
      if hi.1.isEmpty ∧ hf.1.isEmpty then
        if nextIn ['.'] hi.2 then Scan.ok (some 0) hf.2 else Scan.fail hf.2
      else
        Scan.ok (some (scaled neg
          ((hexValue hi.1 : ℚ) + (hexValue hf.1 : ℚ) / 16 ^ hf.1.length) 2
          (scanExponent ['p', 'P'] hf.2).1)) (scanExponent ['p', 'P'] hf.2).2
    else
      let fp := takeFraction isDigit ip.2
      if ip.1.isEmpty ∧ fp.1.isEmpty then Scan.fail fp.2
      else
        Scan.ok (some (scaled neg
          ((digitsValue ip.1 : ℚ) + (digitsValue fp.1 : ℚ) / 10 ^ fp.1.length) 10
          (scanExponent ['e', 'E'] fp.2).1)) (scanExponent ['e', 'E'] fp.2).2

/-- The conversion `%lf` into a `double`.  The value is `none` when the
input denotes an infinity or a NaN, which is not a value of the model of
`double`. -/
def scanDouble (f : FileIn) : Scan (Option ℚ) :=
  if (skipSpace f).rest.isEmpty then Scan.fail (skipSpace f)
  else scanMantissa (takeSign (skipSpace f)).1 (takeSign (skipSpace f)).2

/-- The values that the local variables of `Account::loadFromFile` and of
the calls of `Currency::loadFromFile` in its loop hold before `fscanf`
stores into them.  They are not initialised: the program reads them when
`fscanf` has failed, which C++ leaves undefined; the model takes them to be
arbitrary values, and the theorems hold for all of them.  `currencyCode i`,
`rate i` and `balance i` are those of the loop iteration `i`. -/
structure Stale where
  accountId : Int
  ownerBuffer : String
  currencyCount : Nat
  currencyCode : Nat → String
  rate : Nat → ℚ
  balance : Nat → ℚ

/-- The call `fscanf(file, "%d %s %zu", &accountId, ownerBuffer,
&currencyCount)` and the three variables after it: `fscanf` stops at the
first conversion that fails; `none` is undefined behaviour. -/
def scanHeader (st : Stale) (f : FileIn) : Option (Int × String × Nat × FileIn) :=
  match scanInt f with
  | Scan.undef => none
  | Scan.fail f1 => some (st.accountId, st.ownerBuffer, st.currencyCount, f1)
  | Scan.ok accountId f1 =>
    match scanStr 100 (skipSpace f1) with
    | Scan.undef => none
    | Scan.fail f2 => some (accountId, st.ownerBuffer, st.currencyCount, f2)
    | Scan.ok owner f2 =>
      match scanSize (skipSpace f2) with
      | Scan.undef => none
      | Scan.fail f3 => some (accountId, owner, st.currencyCount, f3)
      | Scan.ok currencyCount f3 => some (accountId, owner, currencyCount, f3)

/-- The method `Currency::loadFromFile`, with the values `code0` and `rate0`
of its two local variables before the call
`fscanf(file, "%s %lf", currencyCode, &rate)`.  The result is `none` when the
behaviour is undefined, and when the rate read is an infinity or a NaN, for
which the model of `double` has no value. -/
def Currency.loadFromFile (code0 : String) (rate0 : ℚ) (f : FileIn) :
    Option (Currency × FileIn) :=
  match scanStr 4 f with
  | Scan.undef => none
  | Scan.fail f1 => some ({ code := code0, conversionRateToBase := rate0 }, f1)
  | Scan.ok code f1 =>
    match scanDouble (skipSpace f1) with
    | Scan.undef => none
    | Scan.fail f2 => some ({ code := code, conversionRateToBase := rate0 }, f2)
    | Scan.ok none _ => none
    | Scan.ok (some rate) f2 => some ({ code := code, conversionRateToBase := rate }, f2)

/-- The statements `account.addCurrency(currency); account.balances.back() =
balance;`. -/
def Account.addLoaded (a : Account) (currency : Currency) (balance : ℚ) : Account :=
  let b := a.addCurrency currency
  { b with balances := b.balances.set (b.balances.length - 1) balance }

/-- The loop of `Account::loadFromFile`, with `n` iterations left, the next
one being iteration `i`.  The result is `none` when the behaviour is
undefined, and when a rate or a balance read is an infinity or a NaN. -/
def Account.loadLoop (st : Stale) : Nat → Nat → Account → FileIn → Option (Account × FileIn)
  | 0, _, a, f => some (a, f)
  | n + 1, i, a, f =>
    match Currency.loadFromFile (st.currencyCode i) (st.rate i) f with
    | none => none
    | some (currency, f1) =>
      match scanDouble f1 with
      | Scan.undef => none
      | Scan.fail f2 => Account.loadLoop st n (i + 1) (a.addLoaded currency (st.balance i)) f2
      | Scan.ok none _ => none
      | Scan.ok (some balance) f2 =>
        Account.loadLoop st n (i + 1) (a.addLoaded currency balance) f2

/-- The method `Account::loadFromFile`; `none` is undefined behaviour, or a
number read that is an infinity or a NaN. -/
def Account.loadFromFile (st : Stale) (f : FileIn) : Option (Account × FileIn) :=
  match scanHeader st f with
  | none => none
  | some (accountId, owner, currencyCount, f1) =>
    Account.loadLoop st currencyCount 0 (Account.new accountId owner) f1

/-- The loop `while (!feof(file))` of `AccountManager::loadAccountsFromFile`,
at its iteration `k`; `stales k` holds the values of the uninitialised
variables of that iteration.  The exception of `addAccount` leaves the
function. -/
def AccountManager.loadLoop (stales : Nat → Stale) (k : Nat) (m : AccountManager)
    (f : FileIn) : Option MgrOutcome :=
  if f.eof then some { mgr := m, err := none }
  else
    match Account.loadFromFile (stales k) f with
    | none => none
    | some (account, f1) =>
      match h : (m.addAccount account).err with
      | some e => some { mgr := (m.addAccount account).mgr, err := some e }
      | none => AccountManager.loadLoop stales (k + 1) (m.addAccount account).mgr f1
termination_by MAX_ACCOUNTS - m.accountCount
decreasing_by
  unfold AccountManager.addAccount at h ⊢
  by_cases hc : m.accountCount ≥ MAX_ACCOUNTS
  · rw [if_pos hc] at h
    simp at h
  · rw [if_neg hc]
    simp only [AccountManager.accountCount, List.length_append, List.length_singleton] at hc ⊢
    omega

/-- The method `AccountManager::loadAccountsFromFile` on a file with the
content `text`; `none` for the content is a file that `fopen` cannot open. -/
def AccountManager.loadAccountsFromFile (stales : Nat → Stale) (m : AccountManager)
    (content : Option (List Char)) : Option MgrOutcome :=
  match content with
  | none => some { mgr := m, err := some MgrError.cannotOpenForReading }
  | some text => AccountManager.loadLoop stales 0 m { rest := text, eof := false }

/-- A string that `%s` writes and reads back as one token into a buffer of
`cap` characters: not empty, without white space and without the NUL
character, and shorter than `cap` bytes. -/
def IsToken (cap : Nat) (s : String) : Prop :=
  s.data ≠ [] ∧ (∀ x ∈ s.data, isSpace x = false ∧ x ≠ '\x00') ∧ s.utf8ByteSize < cap

/-- The account with every rate and every balance rounded to two decimal
places. -/
def Account.rounded (a : Account) : Account :=
  { a with
    currencies := a.currencies.map (fun c =>
      { code := c.code, conversionRateToBase := round2 c.conversionRateToBase }),
    balances := a.balances.map round2 }

/-- An account with a currency whose rate has four decimals: 1 JPY is
0.0067 units of the base currency. -/
def yenAccount : Account :=
  { owner := "Eve", id := 5, balances := [5],
    currencies := [{ code := "JPY", conversionRateToBase := 67 / 10000 }] }

/-- An account with a currency whose code has four characters. -/
def tetherAccount : Account :=
  { owner := "Frank", id := 6, balances := [0],
    currencies := [{ code := "USDT", conversionRateToBase := 1 }] }

/-- The account that `Account::loadFromFile` builds when every `fscanf`
fails: all its fields are the values of the uninitialised variables. -/
def Stale.account (st : Stale) : Account :=
  { owner := st.ownerBuffer, id := st.accountId,
    balances := (List.range st.currencyCount).map st.balance,
    currencies := (List.range st.currencyCount).map (fun i =>
      { code := st.currencyCode i, conversionRateToBase := st.rate i }) }

/-- An account that `saveToFile` writes as a record that `loadFromFile`
reads back: one balance per currency, an id that fits an `int`, an owner that
is a token of fewer than 100 bytes, a number of currencies that fits a
`size_t`, and codes that are tokens of fewer than 4 bytes. -/
def Account.Storable (a : Account) : Prop :=
  a.WF ∧ (-2147483648 ≤ a.id ∧ a.id ≤ 2147483647) ∧ IsToken 100 a.owner ∧
    a.currencies.length < 18446744073709551616 ∧ ∀ c ∈ a.currencies, IsToken 4 c.code

/-- Values for the uninitialised variables, the same in every iteration. -/
def stale0 : Stale :=
  { accountId := -7, ownerBuffer := "junk", currencyCount := 1,
    currencyCode := fun _ => "???", rate := fun _ => 99, balance := fun _ => 77 }

/-- The accounts that the first `n` iterations of the loop
`while (!feof(file))` read, from iteration `k` on, and the file after them:
each iteration finds the indicator unset and calls `Account::loadFromFile`.
The result is `none` when the loop ends before, or when a call has no
result. -/
def recordsRead (stales : Nat → Stale) : Nat → Nat → FileIn → Option (List Account × FileIn)
  | 0, _, f => some ([], f)
  | n + 1, k, f =>
    if f.eof then none
    else
      match Account.loadFromFile (stales k) f with
      | none => none
      | some (a, f1) =>
        match recordsRead stales n (k + 1) f1 with
        | none => none
        | some (l, f2) => some (a :: l, f2)

theorem findFrom_some_code (code : String) (cs : List Currency) (i k : Nat) (c : Currency)
    (h : Account.findFrom code i cs = some (k, c)) : c.code = code := by
  induction cs generalizing i with
  | nil => simp [Account.findFrom] at h
  | cons d rest ih =>
    unfold Account.findFrom at h
    split at h
    · rename_i hd
      simp only [Option.some.injEq, Prod.mk.injEq] at h
      rw [← h.2]
      exact hd
    · exact ih _ h

theorem findFrom_some_range (code : String) (cs : List Currency) (i k : Nat) (c : Currency)
    (h : Account.findFrom code i cs = some (k, c)) :
    i ≤ k ∧ k < i + cs.length ∧ cs[k - i]? = some c := by
  induction cs generalizing i with
  | nil => simp [Account.findFrom] at h
  | cons d rest ih =>
    unfold Account.findFrom at h
    split at h
    · simp only [Option.some.injEq, Prod.mk.injEq] at h
      obtain ⟨rfl, rfl⟩ := h
      simp
    · obtain ⟨h1, h2, h3⟩ := ih _ h
      refine ⟨by omega, by simp only [List.length_cons]; omega, ?_⟩
      have hk : k - i = (k - (i + 1)) + 1 := by omega
      rw [hk, List.getElem?_cons_succ]
      exact h3

theorem findFrom_some_first (code : String) (cs : List Currency) (i k : Nat) (c : Currency)
    (h : Account.findFrom code i cs = some (k, c)) (j : Nat) (hj : j < k - i) (d : Currency)
    (hd : cs[j]? = some d) : d.code ≠ code := by
  induction cs generalizing i j with
  | nil => simp [Account.findFrom] at h
  | cons e rest ih =>
    unfold Account.findFrom at h
    split at h
    · simp only [Option.some.injEq, Prod.mk.injEq] at h
      omega
    · rename_i hne
      cases j with
      | zero =>
        simp only [List.getElem?_cons_zero, Option.some.injEq] at hd
        rw [← hd]
        exact hne
      | succ j =>
        rw [List.getElem?_cons_succ] at hd
        exact ih (i + 1) h j (by omega) hd

theorem findFrom_none (code : String) (cs : List Currency) (i : Nat)
    (h : Account.findFrom code i cs = none) (d : Currency) (hd : d ∈ cs) : d.code ≠ code := by
  induction cs generalizing i with
  | nil => simp at hd
  | cons e rest ih =>
    unfold Account.findFrom at h
    split at h
    · simp at h
    · rename_i hne
      rcases List.mem_cons.mp hd with rfl | hmem
      · exact hne
      · exact ih (i + 1) h hmem

theorem find_isSome_of_mem (a : Account) (code : String) (d : Currency) (hd : d ∈ a.currencies)
    (hc : d.code = code) : ∃ i c, a.find code = some (i, c) := by
  cases h : a.find code with
  | none => exact absurd hc (findFrom_none code a.currencies 0 h d hd)
  | some p => exact ⟨p.1, p.2, rfl⟩

theorem find_lt_length (a : Account) (code : String) (i : Nat) (c : Currency)
    (h : a.find code = some (i, c)) : i < a.currencies.length := by
  have := (findFrom_some_range code a.currencies 0 i c h).2.1
  omega

theorem deposit_nonpos (a : Account) (amount : ℚ) (code : String) (h : amount ≤ 0) :
    a.deposit amount code = { acct := a, err := some TxError.depositNotPositive } := by
  simp only [Account.deposit, validateDeposit, if_pos h]

theorem deposit_not_found (a : Account) (amount : ℚ) (code : String) (h : 0 < amount)
    (hf : a.find code = none) :
    a.deposit amount code = { acct := a, err := some TxError.currencyNotFound } := by
  simp only [Account.deposit, validateDeposit, if_neg (not_le.mpr h), hf]

theorem deposit_found (a : Account) (amount : ℚ) (code : String) (i : Nat) (c : Currency)
    (h : 0 < amount) (hf : a.find code = some (i, c)) :
    a.deposit amount code =
      { acct :=
          { a with balances := a.balances.set i (a.balances.getD i 0 + amount * c.conversionRateToBase) },
        err := none } := by
  simp only [Account.deposit, validateDeposit, if_neg (not_le.mpr h), hf, Currency.convertToBase]

theorem withdraw_not_found (a : Account) (amount : ℚ) (code : String)
    (hf : a.find code = none) :
    a.withdraw amount code = { acct := a, err := some TxError.currencyNotFound } := by
  simp only [Account.withdraw, hf]

theorem withdraw_nonpos (a : Account) (amount : ℚ) (code : String) (i : Nat) (c : Currency)
    (hf : a.find code = some (i, c)) (h : amount * c.conversionRateToBase ≤ 0) :
    a.withdraw amount code = { acct := a, err := some TxError.withdrawNotPositive } := by
  simp only [Account.withdraw, hf, validateWithdraw, Currency.convertToBase, if_pos h]

theorem withdraw_insufficient (a : Account) (amount : ℚ) (code : String) (i : Nat)
    (c : Currency) (hf : a.find code = some (i, c)) (h : 0 < amount * c.conversionRateToBase)
    (hb : a.balances.getD i 0 < amount * c.conversionRateToBase) :
    a.withdraw amount code = { acct := a, err := some TxError.insufficientFunds } := by
  simp only [Account.withdraw, hf, validateWithdraw, Currency.convertToBase, if_neg (not_le.mpr h),
    if_pos hb]

theorem withdraw_found (a : Account) (amount : ℚ) (code : String) (i : Nat)
    (c : Currency) (hf : a.find code = some (i, c)) (h : 0 < amount * c.conversionRateToBase)
    (hb : amount * c.conversionRateToBase ≤ a.balances.getD i 0) :
    a.withdraw amount code =
      { acct :=
          { a with balances := a.balances.set i (a.balances.getD i 0 - amount * c.conversionRateToBase) },
        err := none } := by
  simp only [Account.withdraw, hf, validateWithdraw, Currency.convertToBase, if_neg (not_le.mpr h),
    if_neg (not_lt.mpr hb)]

/-! ## The claims -/

/-- C1. On an account where the search for `code` selects a currency with a
positive rate, `deposit` and `withdraw` of an amount `≤ 0` (zero included) both
fail with an invalid-amount error, whatever the balances are. -/
theorem nonpositive_amount_rejected (a : Account) (code : String) (amount : ℚ) (i : Nat)
    (c : Currency) (hfind : a.find code = some (i, c)) (hrate : 0 < c.conversionRateToBase)
    (hamt : amount ≤ 0) :
    (a.deposit amount code).err = some TxError.depositNotPositive ∧
      (a.withdraw amount code).err = some TxError.withdrawNotPositive ∧
      TxError.depositNotPositive.isInvalidAmount = true ∧
      TxError.withdrawNotPositive.isInvalidAmount = true := by
  refine ⟨?_, ?_, rfl, rfl⟩
  · rw [deposit_nonpos a amount code hamt]
  · rw [withdraw_nonpos a amount code i c hfind (mul_nonpos_of_nonpos_of_nonneg hamt hrate.le)]

theorem nonpositive_amount_rejected_witness :
    alice.find "EUR" = some (1, eur) ∧ 0 < eur.conversionRateToBase ∧ (0 : ℚ) ≤ 0 ∧
      ((alice.deposit 0 "EUR").err = some TxError.depositNotPositive ∧
        (alice.withdraw 0 "EUR").err = some TxError.withdrawNotPositive ∧
        TxError.depositNotPositive.isInvalidAmount = true ∧
        TxError.withdrawNotPositive.isInvalidAmount = true) :=
  ⟨rfl, by norm_num [eur], le_refl 0,
    nonpositive_amount_rejected alice "EUR" 0 1 eur rfl (by norm_num [eur]) (le_refl 0)⟩

/-- C3. On a well-formed account where the search for `code` selects position
`i` holding a currency with a positive rate: for `amount > 0`, `withdraw` fails
with insufficient funds exactly when `convertToBase(amount)` exceeds
`balances[i]`; when `convertToBase(amount)` equals `balances[i]` it succeeds
and leaves `balances[i]` equal to `0`; and for `amount ≤ 0` the error is the
invalid-amount one. -/
theorem withdraw_insufficient_iff (a : Account) (code : String) (amount : ℚ) (i : Nat)
    (c : Currency) (hwf : a.WF) (hfind : a.find code = some (i, c))
    (hrate : 0 < c.conversionRateToBase) :
    (0 < amount →
      ((a.withdraw amount code).err = some TxError.insufficientFunds ↔
        a.balances.getD i 0 < c.convertToBase amount)) ∧
    (0 < amount → c.convertToBase amount = a.balances.getD i 0 →
      (a.withdraw amount code).err = none ∧
        (a.withdraw amount code).acct.balances.getD i 0 = 0) ∧
    (amount ≤ 0 → (a.withdraw amount code).err = some TxError.withdrawNotPositive) := by
  have hi : i < a.balances.length := by
    rw [hwf]
    exact find_lt_length a code i c hfind
  refine ⟨?_, ?_, ?_⟩
  · intro hamt
    have hpos : 0 < amount * c.conversionRateToBase := mul_pos hamt hrate
    unfold Currency.convertToBase
    constructor
    · intro herr
      by_contra hnot
      rw [withdraw_found a amount code i c hfind hpos (not_lt.mp hnot)] at herr
      simp at herr
    · intro hlt
      rw [withdraw_insufficient a amount code i c hfind hpos hlt]
  · intro hamt heq
    have hpos : 0 < amount * c.conversionRateToBase := mul_pos hamt hrate
    unfold Currency.convertToBase at heq
    rw [withdraw_found a amount code i c hfind hpos heq.le]
    refine ⟨rfl, ?_⟩
    simp only [List.getD_eq_getElem?_getD, List.getElem?_set_self hi, Option.getD_some]
    rw [List.getD_eq_getElem?_getD] at heq
    rw [heq]
    exact sub_self _
  · intro hamt
    rw [withdraw_nonpos a amount code i c hfind (mul_nonpos_of_nonpos_of_nonneg hamt hrate.le)]

theorem withdraw_insufficient_iff_witness :
    aliceFunded.WF ∧ aliceFunded.find "USD" = some (0, usd) ∧ 0 < usd.conversionRateToBase ∧
      ((aliceFunded.withdraw 1000 "USD").err = none ∧
        (aliceFunded.withdraw 1000 "USD").acct.balances.getD 0 0 = 0) :=
  ⟨by decide, rfl, by norm_num [usd],
    (withdraw_insufficient_iff aliceFunded "USD" 1000 0 usd (by decide) rfl
      (by norm_num [usd])).2.1 (by norm_num)
      (by norm_num [usd, aliceFunded, Currency.convertToBase])⟩

/-- C5. With `rateToBase ≠ 0`, converting to the base unit and back, or from
the base unit and back, is the identity over exact arithmetic. -/
theorem convert_round_trip (c : Currency) (x : ℚ) (h : c.conversionRateToBase ≠ 0) :
    c.convertFromBase (c.convertToBase x) = x ∧ c.convertToBase (c.convertFromBase x) = x := by
  unfold Currency.convertFromBase Currency.convertToBase
  constructor
  · field_simp
  · field_simp

theorem convert_round_trip_witness :
    eur.conversionRateToBase ≠ 0 ∧
      (eur.convertFromBase (eur.convertToBase 100) = 100 ∧
        eur.convertToBase (eur.convertFromBase 100) = 100) :=
  ⟨by norm_num [eur], convert_round_trip eur 100 (by norm_num [eur])⟩

theorem find_set_balances (a : Account) (bs : List ℚ) (code : String) :
    Account.find { a with balances := bs } code = a.find code := rfl

theorem getD_set_self (bs : List ℚ) (i : Nat) (x : ℚ) (hi : i < bs.length) :
    (bs.set i x).getD i 0 = x := by
  simp only [List.getD_eq_getElem?_getD, List.getElem?_set_self hi, Option.getD_some]

theorem set_set_getD (bs : List ℚ) (i : Nat) (x : ℚ) :
    (bs.set i x).set i (bs.getD i 0) = bs := by
  rw [List.set_set]
  apply List.ext_getElem?
  intro j
  by_cases hj : i = j
  · subst hj
    by_cases hi : i < bs.length
    · rw [List.getElem?_set_self hi, List.getD_eq_getElem?_getD, List.getElem?_eq_getElem hi]
      rfl
    · rw [List.set_eq_of_length_le (not_lt.mp hi)]
  · rw [List.getElem?_set_ne hj]

/-- C4 (as the code has it). On a well-formed account where the search for
`code` selects position `i` with currency `c`, and for `amount > 0`: `deposit`
followed by `withdraw` of the same amount both succeed exactly when the rate
of `c` is positive and `balances[i]` is not negative before the deposit; in
that case the account after the two calls is the account before them (the
balance at `i` is back to its value, every other balance is unchanged). -/
theorem deposit_then_withdraw_restores (a : Account) (code : String) (amount : ℚ) (i : Nat)
    (c : Currency) (hwf : a.WF) (hfind : a.find code = some (i, c)) (hamt : 0 < amount) :
    (((a.deposit amount code).err = none ∧
        ((a.deposit amount code).acct.withdraw amount code).err = none) ↔
      (0 < c.conversionRateToBase ∧ 0 ≤ a.balances.getD i 0)) ∧
    (0 < c.conversionRateToBase → 0 ≤ a.balances.getD i 0 →
      ((a.deposit amount code).acct.withdraw amount code).acct = a) := by
  have hi : i < a.balances.length := by
    rw [hwf]
    exact find_lt_length a code i c hfind
  rw [deposit_found a amount code i c hamt hfind]
  simp only []
  have hfind2 := (find_set_balances a
    (a.balances.set i (a.balances.getD i 0 + amount * c.conversionRateToBase)) code).trans hfind
  have hbal := getD_set_self a.balances i
    (a.balances.getD i 0 + amount * c.conversionRateToBase) hi
  constructor
  · constructor
    · rintro ⟨-, hw⟩
      by_cases hx : amount * c.conversionRateToBase ≤ 0
      · rw [withdraw_nonpos _ amount code i c hfind2 hx] at hw
        simp at hw
      · have hpos := not_le.mp hx
        have hrate : 0 < c.conversionRateToBase := pos_of_mul_pos_right hpos hamt.le
        refine ⟨hrate, ?_⟩
        by_contra hneg
        have hlt : a.balances.getD i 0 + amount * c.conversionRateToBase
            < amount * c.conversionRateToBase := by linarith [not_le.mp hneg]
        rw [withdraw_insufficient _ amount code i c hfind2 hpos (by rw [hbal]; exact hlt)] at hw
        simp at hw
    · rintro ⟨hrate, hb⟩
      refine ⟨trivial, ?_⟩
      rw [withdraw_found _ amount code i c hfind2 (mul_pos hamt hrate)
        (by rw [hbal]; linarith)]
  · intro hrate hb
    rw [withdraw_found _ amount code i c hfind2 (mul_pos hamt hrate) (by rw [hbal]; linarith)]
    simp only []
    rw [hbal, add_sub_cancel_right, set_set_getD]

theorem deposit_then_withdraw_restores_witness :
    aliceFunded.WF ∧ aliceFunded.find "EUR" = some (1, eur) ∧ (0 : ℚ) < 100 ∧
      ((aliceFunded.deposit 100 "EUR").acct.withdraw 100 "EUR").acct = aliceFunded :=
  ⟨by decide, rfl, by norm_num,
    (deposit_then_withdraw_restores aliceFunded "EUR" 100 1 eur (by decide) rfl
      (by norm_num)).2 (by norm_num [eur]) (by norm_num [aliceFunded])⟩

/-- C4 fails as stated at two inputs. With a currency of rate `0`, the deposit
of `5` succeeds and the withdraw of `5` fails (its base amount `0` is not
positive). With a USD balance of `-10`, the deposit of `5` succeeds and the
withdraw of `5` fails with insufficient funds. -/
theorem deposit_then_withdraw_counterexample :
    ((0 : ℚ) < 5 ∧ zeroRateAccount.find "XXX" ≠ none ∧
      (zeroRateAccount.deposit 5 "XXX").err = none ∧
      ((zeroRateAccount.deposit 5 "XXX").acct.withdraw 5 "XXX").err
        = some TxError.withdrawNotPositive) ∧
    (overdrawnAccount.find "USD" ≠ none ∧
      (overdrawnAccount.deposit 5 "USD").err = none ∧
      ((overdrawnAccount.deposit 5 "USD").acct.withdraw 5 "USD").err
        = some TxError.insufficientFunds) := by
  have h1 : zeroRateAccount.find "XXX" = some (0, { code := "XXX", conversionRateToBase := 0 }) :=
    rfl
  have h2 : overdrawnAccount.find "USD" = some (0, usd) := rfl
  refine ⟨⟨by norm_num, by rw [h1]; simp, ?_, ?_⟩, by rw [h2]; simp, ?_, ?_⟩
  · rw [deposit_found _ 5 "XXX" 0 _ (by norm_num) h1]
  · rw [deposit_found _ 5 "XXX" 0 _ (by norm_num) h1]
    rw [withdraw_nonpos _ 5 "XXX" 0 _ ((find_set_balances _ _ _).trans h1) (by norm_num)]
  · rw [deposit_found _ 5 "USD" 0 _ (by norm_num) h2]
  · rw [deposit_found _ 5 "USD" 0 _ (by norm_num) h2]
    rw [withdraw_insufficient _ 5 "USD" 0 _ ((find_set_balances _ _ _).trans h2)
      (by norm_num [usd]) (by norm_num [usd, overdrawnAccount])]

theorem findFrom_eq_none_of_absent (code : String) (cs : List Currency) (i : Nat)
    (h : ∀ d ∈ cs, d.code ≠ code) : Account.findFrom code i cs = none := by
  induction cs generalizing i with
  | nil => rfl
  | cons e rest ih =>
    unfold Account.findFrom
    have hne : ¬ e.getCode = code := h e (List.mem_cons_self e rest)
    rw [if_neg hne]
    exact ih (i + 1) (fun d hd => h d (List.mem_cons_of_mem e hd))

/-- C9. On a well-formed account holding `code`, `deposit` of an amount `> 0`
succeeds; it adds `convertToBase(amount)` to the balance at the first position
whose code equals `code`; every other balance, the number of balances, the
currency list, the id and the owner are unchanged. -/
theorem deposit_first_match (a : Account) (code : String) (amount : ℚ) (hwf : a.WF)
    (hamt : 0 < amount) (hpres : ∃ d ∈ a.currencies, d.code = code) :
    ∃ i c, a.currencies[i]? = some c ∧ c.code = code ∧
      (∀ j d, j < i → a.currencies[j]? = some d → d.code ≠ code) ∧
      (a.deposit amount code).err = none ∧
      (a.deposit amount code).acct.balances.getD i 0
        = a.balances.getD i 0 + amount * c.conversionRateToBase ∧
      c.convertToBase amount = amount * c.conversionRateToBase ∧
      (∀ j, j ≠ i → (a.deposit amount code).acct.balances[j]? = a.balances[j]?) ∧
      (a.deposit amount code).acct.balances.length = a.balances.length ∧
      (a.deposit amount code).acct.currencies = a.currencies ∧
      (a.deposit amount code).acct.id = a.id ∧
      (a.deposit amount code).acct.owner = a.owner := by
  obtain ⟨d, hd, hcode⟩ := hpres
  obtain ⟨i, c, hfind⟩ := find_isSome_of_mem a code d hd hcode
  have hi : i < a.balances.length := by
    rw [hwf]
    exact find_lt_length a code i c hfind
  have hrange := findFrom_some_range code a.currencies 0 i c hfind
  refine ⟨i, c, by simpa using hrange.2.2, findFrom_some_code code a.currencies 0 i c hfind,
    ?_, ?_⟩
  · intro j e hj he
    exact findFrom_some_first code a.currencies 0 i c hfind j (by omega) e he
  · rw [deposit_found a amount code i c hamt hfind]
    refine ⟨rfl, getD_set_self _ _ _ hi, rfl, ?_, by simp, rfl, rfl, rfl⟩
    intro j hj
    exact List.getElem?_set_ne (Ne.symm hj)

theorem deposit_first_match_witness :
    alice.WF ∧ (0 : ℚ) < 1000 ∧ (∃ d ∈ alice.currencies, d.code = "USD") ∧
      ∃ i c, alice.currencies[i]? = some c ∧ c.code = "USD" ∧
        (∀ j d, j < i → alice.currencies[j]? = some d → d.code ≠ "USD") ∧
        (alice.deposit 1000 "USD").err = none ∧
        (alice.deposit 1000 "USD").acct.balances.getD i 0
          = alice.balances.getD i 0 + 1000 * c.conversionRateToBase ∧
        c.convertToBase 1000 = 1000 * c.conversionRateToBase ∧
        (∀ j, j ≠ i → (alice.deposit 1000 "USD").acct.balances[j]? = alice.balances[j]?) ∧
        (alice.deposit 1000 "USD").acct.balances.length = alice.balances.length ∧
        (alice.deposit 1000 "USD").acct.currencies = alice.currencies ∧
        (alice.deposit 1000 "USD").acct.id = alice.id ∧
        (alice.deposit 1000 "USD").acct.owner = alice.owner :=
  ⟨by decide, by norm_num, ⟨usd, by simp [alice, Account.addCurrency, Account.new], rfl⟩,
    deposit_first_match alice "USD" 1000 (by decide) (by norm_num)
      ⟨usd, by simp [alice, Account.addCurrency, Account.new], rfl⟩⟩

/-- C10. Whenever `deposit` or `withdraw` leaves with an exception (whichever
it is), the account after the call is the account before the call; and the
exceptions are the invalid-amount, currency-not-found and insufficient-funds
ones. -/
theorem failed_call_leaves_account (a : Account) (amount : ℚ) (code : String) :
    (∀ e, (a.deposit amount code).err = some e →
      (a.deposit amount code).acct = a ∧
        (e = TxError.depositNotPositive ∨ e = TxError.currencyNotFound)) ∧
    (∀ e, (a.withdraw amount code).err = some e →
      (a.withdraw amount code).acct = a ∧
        (e = TxError.currencyNotFound ∨ e = TxError.withdrawNotPositive ∨
          e = TxError.insufficientFunds)) := by
  constructor
  · intro e he
    by_cases hamt : amount ≤ 0
    · rw [deposit_nonpos a amount code hamt] at he ⊢
      simp only [Option.some.injEq] at he
      exact ⟨rfl, Or.inl he.symm⟩
    · cases hf : a.find code with
      | none =>
        rw [deposit_not_found a amount code (not_le.mp hamt) hf] at he ⊢
        simp only [Option.some.injEq] at he
        exact ⟨rfl, Or.inr he.symm⟩
      | some p =>
        rw [deposit_found a amount code p.1 p.2 (not_le.mp hamt) hf] at he
        simp at he
  · intro e he
    cases hf : a.find code with
    | none =>
      rw [withdraw_not_found a amount code hf] at he ⊢
      simp only [Option.some.injEq] at he
      exact ⟨rfl, Or.inl he.symm⟩
    | some p =>
      by_cases hx : amount * p.2.conversionRateToBase ≤ 0
      · rw [withdraw_nonpos a amount code p.1 p.2 hf hx] at he ⊢
        simp only [Option.some.injEq] at he
        exact ⟨rfl, Or.inr (Or.inl he.symm)⟩
      · by_cases hb : a.balances.getD p.1 0 < amount * p.2.conversionRateToBase
        · rw [withdraw_insufficient a amount code p.1 p.2 hf (not_le.mp hx) hb] at he ⊢
          simp only [Option.some.injEq] at he
          exact ⟨rfl, Or.inr (Or.inr he.symm)⟩
        · rw [withdraw_found a amount code p.1 p.2 hf (not_le.mp hx) (not_lt.mp hb)] at he
          simp at he

theorem failed_call_leaves_account_witness :
    (alice.deposit 0 "USD").err = some TxError.depositNotPositive ∧
      (alice.deposit 0 "USD").acct = alice ∧
      (aliceFunded.withdraw 100 "EUR").err = some TxError.insufficientFunds ∧
      (aliceFunded.withdraw 100 "EUR").acct = aliceFunded :=
  have h1 : (alice.deposit 0 "USD").err = some TxError.depositNotPositive := by
    rw [deposit_nonpos alice 0 "USD" (le_refl 0)]
  have h2 : (aliceFunded.withdraw 100 "EUR").err = some TxError.insufficientFunds := by
    rw [withdraw_insufficient aliceFunded 100 "EUR" 1 eur rfl (by norm_num [eur])
      (by norm_num [eur, aliceFunded])]
  ⟨h1, ((failed_call_leaves_account alice 0 "USD").1 _ h1).1, h2,
    ((failed_call_leaves_account aliceFunded 100 "EUR").2 _ h2).1⟩

theorem transfer_withdraw_failed (src tgt : Account) (amount : ℚ) (fromC toC : String)
    (e : TxError) (h : (src.withdraw amount fromC).err = some e) :
    Account.transfer src tgt amount fromC toC =
      { src := (src.withdraw amount fromC).acct, tgt := tgt, err := some e } := by
  simp only [Account.transfer, h]

theorem transfer_withdraw_ok (src tgt : Account) (amount : ℚ) (fromC toC : String)
    (h : (src.withdraw amount fromC).err = none) :
    Account.transfer src tgt amount fromC toC =
      { src := (src.withdraw amount fromC).acct, tgt := (tgt.deposit amount toC).acct,
        err := (tgt.deposit amount toC).err } := by
  simp only [Account.transfer, h]

/-- C2 (the code at the failing input). `transfer` of the amount `0` from
"GBP", which `account1` does not hold, leaves with the currency-not-found
exception, which is not an invalid-amount error, although `validateTransfer`
rejects the amount `0`: `transfer` never calls `validateTransfer`. -/
theorem transfer_skips_validateTransfer :
    (Account.transfer alice bob 0 "GBP" "USD").err = some TxError.currencyNotFound ∧
      TxError.currencyNotFound.isInvalidAmount = false ∧
      validateTransfer 0 = some TxError.transferNotPositive := by
  have hw : alice.withdraw 0 "GBP" = { acct := alice, err := some TxError.currencyNotFound } :=
    withdraw_not_found alice 0 "GBP" rfl
  refine ⟨?_, rfl, ?_⟩
  · rw [transfer_withdraw_failed alice bob 0 "GBP" "USD" TxError.currencyNotFound (by rw [hw])]
  · simp [validateTransfer]

theorem mainStep1_eq : mainStep1 = { acct := aliceFunded, err := none } := by
  unfold mainStep1
  rw [deposit_found alice 1000 "USD" 0 usd (by norm_num) rfl]
  norm_num [alice, aliceFunded, Account.addCurrency, Account.new, usd, eur]

theorem mainStep2_eq :
    mainStep2 = { acct := aliceFunded, err := some TxError.insufficientFunds } := by
  unfold mainStep2
  rw [mainStep1_eq]
  exact withdraw_insufficient aliceFunded 100 "EUR" 1 eur rfl (by norm_num [eur])
    (by norm_num [eur, aliceFunded])

theorem mainStep3_eq :
    mainStep3 = { src := { aliceFunded with balances := [800, 0] },
                  tgt := { bob with balances := [0, 260] }, err := none } := by
  unfold mainStep3
  rw [mainStep2_eq]
  have hw := withdraw_found aliceFunded 200 "USD" 0 usd rfl (by norm_num [usd])
    (by norm_num [usd, aliceFunded])
  have hd := deposit_found bob 200 "GBP" 1 gbp (by norm_num) rfl
  rw [transfer_withdraw_ok aliceFunded bob 200 "USD" "GBP" (by rw [hw]), hw, hd]
  norm_num [aliceFunded, bob, Account.addCurrency, Account.new, usd, gbp]

/-- C6 fails as stated: in the scenario of `main` the second step,
`withdraw(100, "EUR")`, leaves with the insufficient-funds exception; no
balance of the account is `890` after it; and the USD line displayed after the
transfer does not show `690`. -/
theorem main_scenario_counterexample :
    mainStep2.err = some TxError.insufficientFunds ∧
      (890 : ℚ) ∉ mainStep2.acct.balances ∧
      ("USD", (690 : ℚ)) ∉ mainStep3.src.display := by
  rw [mainStep2_eq, mainStep3_eq]
  refine ⟨rfl, ?_, ?_⟩
  · norm_num [aliceFunded]
  · norm_num [aliceFunded, Account.display, Account.displayFrom, Currency.getCode,
      Currency.convertFromBase, usd, eur]

/-- C6 (as the code has it). In the scenario of `main`, `deposit(1000, "USD")`
succeeds and leaves the balances `[1000, 0]`; `withdraw(100, "EUR")` then
fails with insufficient funds (its base amount `110` exceeds the EUR balance
`0`) and leaves the account unchanged; `transfer(Bob, 200, "USD", "GBP")` run
on that state succeeds, leaves the balances `[800, 0]` on the source and
`[0, 260]` on the target, and the source then displays `800` for USD. -/
theorem main_scenario :
    mainStep1 = { acct := aliceFunded, err := none } ∧
      mainStep2 = { acct := aliceFunded, err := some TxError.insufficientFunds } ∧
      eur.convertToBase 100 = 110 ∧
      mainStep3 = { src := { aliceFunded with balances := [800, 0] },
                    tgt := { bob with balances := [0, 260] }, err := none } ∧
      mainStep3.src.display = [("USD", 800), ("EUR", 0)] := by
  refine ⟨mainStep1_eq, mainStep2_eq, by norm_num [eur, Currency.convertToBase], mainStep3_eq, ?_⟩
  rw [mainStep3_eq]
  norm_num [aliceFunded, Account.display, Account.displayFrom, Currency.getCode,
    Currency.convertFromBase, usd, eur]

/-- C7 fails as stated: the successful transfer of `200` from USD (rate `1`)
into the GBP balance (rate `1.3`) of the target raises that balance by `260`,
which is not `200 / 1.3`. -/
theorem transfer_credit_counterexample :
    aliceFunded.find "USD" = some (0, usd) ∧ usd.conversionRateToBase = 1 ∧
      bob.find "GBP" = some (1, gbp) ∧ 0 < gbp.conversionRateToBase ∧
      (Account.transfer aliceFunded bob 200 "USD" "GBP").err = none ∧
      (Account.transfer aliceFunded bob 200 "USD" "GBP").tgt.balances.getD 1 0
        - bob.balances.getD 1 0 = 260 ∧
      (260 : ℚ) ≠ 200 / gbp.conversionRateToBase := by
  have hw := withdraw_found aliceFunded 200 "USD" 0 usd rfl (by norm_num [usd])
    (by norm_num [usd, aliceFunded])
  have hd := deposit_found bob 200 "GBP" 1 gbp (by norm_num) rfl
  rw [transfer_withdraw_ok aliceFunded bob 200 "USD" "GBP" (by rw [hw]), hd]
  refine ⟨rfl, rfl, rfl, by norm_num [gbp], rfl, ?_, by norm_num [gbp]⟩
  norm_num [bob, Account.addCurrency, Account.new, gbp]

theorem transferSelf_withdraw_ok (a : Account) (amount : ℚ) (fromC toC : String)
    (h : (a.withdraw amount fromC).err = none) :
    a.transferSelf amount fromC toC = (a.withdraw amount fromC).acct.deposit amount toC := by
  simp only [Account.transferSelf, h]

theorem transferSelf_withdraw_failed (a : Account) (amount : ℚ) (fromC toC : String)
    (e : TxError) (h : (a.withdraw amount fromC).err = some e) :
    a.transferSelf amount fromC toC
      = { acct := (a.withdraw amount fromC).acct, err := some e } := by
  simp only [Account.transferSelf, h]

/-- The transfer step of an account to itself is `Account.transferSelf`. -/
theorem step_transfer_self (pool : List Account) (k : Nat) (a : Account) (amount : ℚ)
    (fromC toC : String) (hk : pool[k]? = some a) :
    step pool (Call.transfer k k amount fromC toC)
      = pool.set k (a.transferSelf amount fromC toC).acct := by
  have hlt : k < pool.length := by
    rcases List.getElem?_eq_some_iff.mp hk with ⟨hlt, -⟩
    exact hlt
  cases hw : (a.withdraw amount fromC).err with
  | some e =>
    simp only [step, hk, hw, transferSelf_withdraw_failed a amount fromC toC e hw]
  | none =>
    have hk2 : (pool.set k (a.withdraw amount fromC).acct)[k]?
        = some (a.withdraw amount fromC).acct := List.getElem?_set_self hlt
    simp only [step, hk, hw, hk2, transferSelf_withdraw_ok a amount fromC toC hw,
      List.set_set]

/-- The transfer of `200` from the USD balance of an account with the
balances `[1000, 0]` to the USD balance of the same account leaves the
balances as they were, as an `Account.transferSelf` and as a `step`. -/
theorem transferSelf_same_balance :
    (aliceFunded.transferSelf 200 "USD" "USD").acct.balances = [1000, 0] ∧
      (step [aliceFunded] (Call.transfer 0 0 200 "USD" "USD")).map Account.balances
        = [[1000, 0]] := by
  have hw := withdraw_found aliceFunded 200 "USD" 0 usd rfl (by norm_num [usd])
    (by norm_num [usd, aliceFunded])
  have hd := deposit_found (aliceFunded.withdraw 200 "USD").acct 200 "USD" 0 usd (by norm_num)
    (by rw [hw]; exact (find_set_balances aliceFunded _ "USD").trans rfl)
  have h1 : (aliceFunded.transferSelf 200 "USD" "USD").acct.balances = [1000, 0] := by
    rw [transferSelf_withdraw_ok aliceFunded 200 "USD" "USD" (by rw [hw]), hd, hw]
    norm_num [aliceFunded, usd]
  refine ⟨h1, ?_⟩
  rw [step_transfer_self [aliceFunded] 0 aliceFunded 200 "USD" "USD" rfl]
  simp only [List.set_cons_zero, List.map_cons, List.map_nil, h1]

/-- C7 (as the code has it). `transfer` hands the same numeric amount to
`deposit`: where the search for `toCurrency` on the well-formed target selects
position `j` with currency `c`, the deposit step of a successful transfer
adds `convertToBase(amount) = amount * rate(c)` to the balance at `j`,
whatever the rate of the currency withdrawn from. When the target is another
account, that balance ends `amount * rate(c)` above its value before the
call. When the target is the source itself, it does so too if `fromCurrency`
selects another position; if `fromCurrency` selects the same position, the
withdraw and the deposit cancel and the balance ends at its value before the
call. -/
theorem transfer_credits_target (src tgt : Account) (amount : ℚ) (fromC toC : String)
    (j : Nat) (c : Currency) (hwf : tgt.WF) (hfind : tgt.find toC = some (j, c)) :
    ((Account.transfer src tgt amount fromC toC).err = none →
      (Account.transfer src tgt amount fromC toC).tgt.balances.getD j 0
        = tgt.balances.getD j 0 + amount * c.conversionRateToBase) ∧
    ((tgt.transferSelf amount fromC toC).err = none →
      (tgt.transferSelf amount fromC toC).acct.balances.getD j 0
          = (tgt.withdraw amount fromC).acct.balances.getD j 0
            + amount * c.conversionRateToBase ∧
        ∃ i d, tgt.find fromC = some (i, d) ∧
          (i ≠ j → (tgt.transferSelf amount fromC toC).acct.balances.getD j 0
            = tgt.balances.getD j 0 + amount * c.conversionRateToBase) ∧
          (i = j → (tgt.transferSelf amount fromC toC).acct.balances.getD j 0
            = tgt.balances.getD j 0)) ∧
    c.convertToBase amount = amount * c.conversionRateToBase := by
  have hj : j < tgt.balances.length := by
    rw [hwf]
    exact find_lt_length tgt toC j c hfind
  refine ⟨?_, ?_, rfl⟩
  · intro hok
    cases hw : (src.withdraw amount fromC).err with
    | some e =>
      rw [transfer_withdraw_failed src tgt amount fromC toC e hw] at hok
      simp at hok
    | none =>
      rw [transfer_withdraw_ok src tgt amount fromC toC hw] at hok ⊢
      simp only [] at hok ⊢
      by_cases hamt : amount ≤ 0
      · rw [deposit_nonpos tgt amount toC hamt] at hok
        simp at hok
      · rw [deposit_found tgt amount toC j c (not_le.mp hamt) hfind]
        exact getD_set_self _ _ _ hj
  · intro hok
    cases hw : (tgt.withdraw amount fromC).err with
    | some e =>
      rw [transferSelf_withdraw_failed tgt amount fromC toC e hw] at hok
      simp at hok
    | none =>
      rw [transferSelf_withdraw_ok tgt amount fromC toC hw] at hok ⊢
      cases hf : tgt.find fromC with
      | none =>
        rw [withdraw_not_found tgt amount fromC hf] at hw
        simp at hw
      | some p =>
        by_cases hx : amount * p.2.conversionRateToBase ≤ 0
        · rw [withdraw_nonpos tgt amount fromC p.1 p.2 hf hx] at hw
          simp at hw
        · by_cases hb : tgt.balances.getD p.1 0 < amount * p.2.conversionRateToBase
          · rw [withdraw_insufficient tgt amount fromC p.1 p.2 hf (not_le.mp hx) hb] at hw
            simp at hw
          · have hwf' := withdraw_found tgt amount fromC p.1 p.2 hf (not_le.mp hx)
              (not_lt.mp hb)
            rw [hwf'] at hok ⊢
            simp only [] at hok ⊢
            have hfind2 := (find_set_balances tgt (tgt.balances.set p.1
              (tgt.balances.getD p.1 0 - amount * p.2.conversionRateToBase)) toC).trans hfind
            by_cases hamt : amount ≤ 0
            · rw [deposit_nonpos _ amount toC hamt] at hok
              simp at hok
            · rw [deposit_found _ amount toC j c (not_le.mp hamt) hfind2]
              simp only []
              have hj2 : j < (tgt.balances.set p.1
                  (tgt.balances.getD p.1 0 - amount * p.2.conversionRateToBase)).length := by
                simpa using hj
              rw [getD_set_self _ _ _ hj2]
              refine ⟨rfl, p.1, p.2, rfl, ?_, ?_⟩
              · intro hne
                rw [List.getD_eq_getElem?_getD, List.getElem?_set_ne hne,
                  ← List.getD_eq_getElem?_getD]
              · intro heq
                have hd := (findFrom_some_range fromC tgt.currencies 0 p.1 p.2 hf).2.2
                have hc := (findFrom_some_range toC tgt.currencies 0 j c hfind).2.2
                simp only [Nat.sub_zero] at hd hc
                rw [heq, hc] at hd
                simp only [Option.some.injEq] at hd
                rw [heq, getD_set_self _ _ _ hj, ← hd]
                ring

theorem transfer_credits_target_witness :
    bob.WF ∧ bob.find "GBP" = some (1, gbp) ∧
      (Account.transfer aliceFunded bob 200 "USD" "GBP").err = none ∧
      (Account.transfer aliceFunded bob 200 "USD" "GBP").tgt.balances.getD 1 0
        = bob.balances.getD 1 0 + 200 * gbp.conversionRateToBase ∧
      aliceFunded.WF ∧ aliceFunded.find "USD" = some (0, usd) ∧
      (aliceFunded.transferSelf 200 "USD" "USD").err = none ∧
      (∃ i d, aliceFunded.find "USD" = some (i, d) ∧
        (i ≠ 0 → (aliceFunded.transferSelf 200 "USD" "USD").acct.balances.getD 0 0
          = aliceFunded.balances.getD 0 0 + 200 * usd.conversionRateToBase) ∧
        (i = 0 → (aliceFunded.transferSelf 200 "USD" "USD").acct.balances.getD 0 0
          = aliceFunded.balances.getD 0 0)) :=
  have hw := withdraw_found aliceFunded 200 "USD" 0 usd rfl (by norm_num [usd])
    (by norm_num [usd, aliceFunded])
  have hok : (Account.transfer aliceFunded bob 200 "USD" "GBP").err = none := by
    rw [transfer_withdraw_ok aliceFunded bob 200 "USD" "GBP" (by rw [hw]),
      deposit_found bob 200 "GBP" 1 gbp (by norm_num) rfl]
  have hself : (aliceFunded.transferSelf 200 "USD" "USD").err = none := by
    rw [transferSelf_withdraw_ok aliceFunded 200 "USD" "USD" (by rw [hw]), hw]
    exact congrArg Outcome.err (deposit_found _ 200 "USD" 0 usd (by norm_num)
      ((find_set_balances aliceFunded _ "USD").trans rfl))
  ⟨by decide, rfl, hok,
    (transfer_credits_target aliceFunded bob 200 "USD" "GBP" 1 gbp (by decide) rfl).1 hok,
    by decide, rfl, hself,
    ((transfer_credits_target aliceFunded aliceFunded 200 "USD" "USD" 0 usd (by decide)
      rfl).2.1 hself).2⟩

/-- C8 fails as stated: the source holds "XXX" at rate `0` with the balance
`0`, which is not below `convertToBase(5) = 0`, and the target does not hold
"JPY"; the transfer of `5` leaves with the invalid-amount exception of
`withdraw`, not with currency-not-found, and the source is unchanged. -/
theorem transfer_not_atomic_counterexample :
    (∃ i c, zeroRateAccount.find "XXX" = some (i, c) ∧
        c.convertToBase 5 ≤ zeroRateAccount.balances.getD i 0) ∧
      (0 : ℚ) < 5 ∧ (∀ d ∈ bob.currencies, d.code ≠ "JPY") ∧
      (Account.transfer zeroRateAccount bob 5 "XXX" "JPY").err
        = some TxError.withdrawNotPositive ∧
      (Account.transfer zeroRateAccount bob 5 "XXX" "JPY").err
        ≠ some TxError.currencyNotFound := by
  have hf : zeroRateAccount.find "XXX"
      = some (0, { code := "XXX", conversionRateToBase := 0 }) := rfl
  have hw := withdraw_nonpos zeroRateAccount 5 "XXX" 0 _ hf (by norm_num)
  rw [transfer_withdraw_failed zeroRateAccount bob 5 "XXX" "JPY" TxError.withdrawNotPositive
    (by rw [hw])]
  refine ⟨⟨0, _, hf, ?_⟩, by norm_num, ?_, rfl, by simp⟩
  · norm_num [Currency.convertToBase, zeroRateAccount, Account.addCurrency, Account.new]
  · simp [bob, Account.addCurrency, Account.new, usd, gbp]

/-- C8 (as the code has it). When the search for `fromCurrency` on a
well-formed source selects position `i` with a currency of positive rate, the
amount is positive, the balance at `i` is at least `convertToBase(amount)`,
and the target does not hold `toCurrency`: `transfer` leaves with the
currency-not-found exception, the balance at `i` of the source is reduced by
`convertToBase(amount)` (nothing else of the source changes) and the target is
unchanged. -/
theorem transfer_not_atomic (src tgt : Account) (amount : ℚ) (fromC toC : String) (i : Nat)
    (c : Currency) (hwf : src.WF) (hfind : src.find fromC = some (i, c))
    (hrate : 0 < c.conversionRateToBase) (hamt : 0 < amount)
    (hbal : c.convertToBase amount ≤ src.balances.getD i 0)
    (hto : ∀ d ∈ tgt.currencies, d.code ≠ toC) :
    (Account.transfer src tgt amount fromC toC).err = some TxError.currencyNotFound ∧
      (Account.transfer src tgt amount fromC toC).src.balances.getD i 0
        = src.balances.getD i 0 - c.convertToBase amount ∧
      (Account.transfer src tgt amount fromC toC).src
        = { src with balances := src.balances.set i (src.balances.getD i 0 - c.convertToBase amount) } ∧
      (Account.transfer src tgt amount fromC toC).tgt = tgt := by
  have hi : i < src.balances.length := by
    rw [hwf]
    exact find_lt_length src fromC i c hfind
  have hw := withdraw_found src amount fromC i c hfind (mul_pos hamt hrate) hbal
  have hd := deposit_not_found tgt amount toC hamt
    (findFrom_eq_none_of_absent toC tgt.currencies 0 hto)
  rw [transfer_withdraw_ok src tgt amount fromC toC (by rw [hw]), hw, hd]
  exact ⟨rfl, getD_set_self _ _ _ hi, rfl, rfl⟩

theorem transfer_not_atomic_witness :
    aliceFunded.WF ∧ aliceFunded.find "USD" = some (0, usd) ∧ 0 < usd.conversionRateToBase ∧
      (0 : ℚ) < 200 ∧ usd.convertToBase 200 ≤ aliceFunded.balances.getD 0 0 ∧
      (∀ d ∈ bob.currencies, d.code ≠ "JPY") ∧
      ((Account.transfer aliceFunded bob 200 "USD" "JPY").err = some TxError.currencyNotFound ∧
        (Account.transfer aliceFunded bob 200 "USD" "JPY").src.balances.getD 0 0
          = aliceFunded.balances.getD 0 0 - usd.convertToBase 200 ∧
        (Account.transfer aliceFunded bob 200 "USD" "JPY").src
          = { aliceFunded with balances :=
                aliceFunded.balances.set 0 (aliceFunded.balances.getD 0 0 - usd.convertToBase 200) } ∧
        (Account.transfer aliceFunded bob 200 "USD" "JPY").tgt = bob) :=
  have h1 : usd.convertToBase 200 ≤ aliceFunded.balances.getD 0 0 := by
    norm_num [usd, aliceFunded, Currency.convertToBase]
  have h2 : ∀ d ∈ bob.currencies, d.code ≠ "JPY" := by
    simp [bob, Account.addCurrency, Account.new, usd, gbp]
  ⟨by decide, rfl, by norm_num [usd], by norm_num, h1, h2,
    transfer_not_atomic aliceFunded bob 200 "USD" "JPY" 0 usd (by decide) rfl
      (by norm_num [usd]) (by norm_num) h1 h2⟩

/-- C11. On an account that does not hold `code`: `withdraw` fails with
currency-not-found for every amount; `deposit` fails with currency-not-found
exactly when the amount is positive, and with the invalid-amount error when
the amount is `≤ 0`. -/
theorem lookup_validation_order (a : Account) (code : String) (amount : ℚ)
    (habs : ∀ d ∈ a.currencies, d.code ≠ code) :
    (a.withdraw amount code).err = some TxError.currencyNotFound ∧
      ((a.deposit amount code).err = some TxError.currencyNotFound ↔ 0 < amount) ∧
      (amount ≤ 0 → (a.deposit amount code).err = some TxError.depositNotPositive) := by
  have hf : a.find code = none := findFrom_eq_none_of_absent code a.currencies 0 habs
  refine ⟨by rw [withdraw_not_found a amount code hf], ?_, ?_⟩
  · constructor
    · intro h
      by_contra hn
      rw [deposit_nonpos a amount code (not_lt.mp hn)] at h
      simp at h
    · intro h
      rw [deposit_not_found a amount code h hf]
  · intro h
    rw [deposit_nonpos a amount code h]

theorem lookup_validation_order_witness :
    (∀ d ∈ alice.currencies, d.code ≠ "GBP") ∧
      ((alice.withdraw (-5) "GBP").err = some TxError.currencyNotFound ∧
        ((alice.deposit (-5) "GBP").err = some TxError.currencyNotFound ↔ (0 : ℚ) < -5) ∧
        ((-5 : ℚ) ≤ 0 → (alice.deposit (-5) "GBP").err = some TxError.depositNotPositive)) :=
  have h : ∀ d ∈ alice.currencies, d.code ≠ "GBP" := by
    simp [alice, Account.addCurrency, Account.new, usd, eur]
  ⟨h, lookup_validation_order alice "GBP" (-5) h⟩

theorem addAll_accounts (m : AccountManager) (l : List Account) :
    (m.addAll l).accounts = m.accounts ++ l.take (MAX_ACCOUNTS - m.accounts.length) := by
  induction l generalizing m with
  | nil => simp [AccountManager.addAll]
  | cons a rest ih =>
    unfold AccountManager.addAll
    rw [ih]
    unfold AccountManager.addAccount AccountManager.accountCount
    by_cases h : m.accounts.length ≥ MAX_ACCOUNTS
    · rw [if_pos h]
      have h0 : MAX_ACCOUNTS - m.accounts.length = 0 := by omega
      simp [h0]
    · rw [if_neg h]
      have h1 : MAX_ACCOUNTS - m.accounts.length
          = (MAX_ACCOUNTS - (m.accounts ++ [a]).length) + 1 := by
        simp only [List.length_append, List.length_singleton]
        omega
      rw [h1, List.take_succ_cons]
      simp

/-- C12. `addAccount` returns normally exactly when the ledger holds fewer
than 50 accounts, and then the account is appended after the existing ones;
with 50 accounts or more it throws the capacity exception and leaves the
ledger as it was. After any sequence of `addAccount` calls on an empty ledger
the ledger holds the first 50 accounts of the sequence, in order, so never
more than 50. -/
theorem addAccount_capacity (m : AccountManager) (a : Account) (l : List Account) :
    ((m.addAccount a).err = none ↔ m.accounts.length < 50) ∧
      (m.accounts.length < 50 →
        (m.addAccount a).mgr.accounts = m.accounts ++ [a] ∧
          (m.addAccount a).mgr.accountCount = m.accountCount + 1) ∧
      (50 ≤ m.accounts.length →
        m.addAccount a = { mgr := m, err := some MgrError.maxAccountsReached }) ∧
      (AccountManager.new.addAll l).accounts = l.take 50 ∧
      (AccountManager.new.addAll l).accountCount ≤ 50 := by
  have hmax : MAX_ACCOUNTS = 50 := rfl
  refine ⟨?_, ?_, ?_, ?_, ?_⟩
  · unfold AccountManager.addAccount AccountManager.accountCount
    by_cases h : m.accounts.length ≥ MAX_ACCOUNTS
    · rw [if_pos h]
      simp only [reduceCtorEq, false_iff, not_lt]
      omega
    · rw [if_neg h]
      simp only [true_iff]
      omega
  · intro h
    unfold AccountManager.addAccount AccountManager.accountCount
    rw [if_neg (by omega)]
    simp
  · intro h
    unfold AccountManager.addAccount AccountManager.accountCount
    rw [if_pos (by omega)]
  · rw [addAll_accounts]
    simp [AccountManager.new, hmax]
  · unfold AccountManager.accountCount
    rw [addAll_accounts]
    simp [AccountManager.new, hmax]

theorem addAccount_capacity_witness :
    AccountManager.new.accounts.length < 50 ∧
      (AccountManager.new.addAccount alice).mgr.accounts = AccountManager.new.accounts ++ [alice] ∧
      (AccountManager.new.addAccount alice).mgr.accountCount
        = AccountManager.new.accountCount + 1 :=
  ⟨by decide, (addAccount_capacity AccountManager.new alice []).2.1 (by decide)⟩

theorem ex3_findFrom_eq (code : String) (i : Nat) (cs : List Currency) :
    Ex3.findFrom code i cs = Account.findFrom code i cs := by
  induction cs generalizing i with
  | nil => rfl
  | cons c rest ih =>
    unfold Ex3.findFrom Account.findFrom
    rw [ih]
    rfl

theorem ex3_deposit_found (a : Account) (amount : ℚ) (code : String) (i : Nat) (c : Currency)
    (hf : a.find code = some (i, c)) :
    Ex3.deposit a amount code =
      { a with balances := a.balances.set i (a.balances.getD i 0 + amount * c.conversionRateToBase) } := by
  unfold Account.find at hf
  simp only [Ex3.deposit, ex3_findFrom_eq, hf, Currency.convertToBase]

theorem ex3_withdraw_found (a : Account) (amount : ℚ) (code : String) (i : Nat) (c : Currency)
    (hf : a.find code = some (i, c)) :
    Ex3.withdraw a amount code =
      { a with balances := a.balances.set i (a.balances.getD i 0 - amount * c.conversionRateToBase) } := by
  unfold Account.find at hf
  simp only [Ex3.withdraw, ex3_findFrom_eq, hf, Currency.convertToBase]

/-- C18 (the code at the failing inputs). In the variant of src/tp1ex3.cpp,
on the account of `main` with the balances `[1000, 0]`: the deposit of `-5`
USD changes the USD balance to `995`; the withdraw of `-5` USD changes it to
`1005`; the withdraw of `100` EUR, whose base amount `110` exceeds the EUR
balance `0`, changes the EUR balance to `-110`. -/
theorem silent_variant_mutates :
    (Ex3.deposit aliceFunded (-5) "USD").balances = [995, 0] ∧
      (Ex3.withdraw aliceFunded (-5) "USD").balances = [1005, 0] ∧
      eur.convertToBase 100 = 110 ∧
      (Ex3.withdraw aliceFunded 100 "EUR").balances = [1000, -110] := by
  rw [ex3_deposit_found aliceFunded (-5) "USD" 0 usd rfl,
    ex3_withdraw_found aliceFunded (-5) "USD" 0 usd rfl,
    ex3_withdraw_found aliceFunded 100 "EUR" 1 eur rfl]
  norm_num [aliceFunded, usd, eur, Currency.convertToBase]

/-- C19. Whenever `deposit`, `withdraw`, `transfer` or `addAccount` of
src/tp1.cpp returns normally, the same call of src/tp1ex3.cpp on the same
state ends in the same state. -/
theorem variants_agree_on_success (a tgt : Account) (amount : ℚ) (code toCode : String)
    (m : AccountManager) :
    ((a.deposit amount code).err = none →
      Ex3.deposit a amount code = (a.deposit amount code).acct) ∧
    ((a.withdraw amount code).err = none →
      Ex3.withdraw a amount code = (a.withdraw amount code).acct) ∧
    ((Account.transfer a tgt amount code toCode).err = none →
      Ex3.transfer a tgt amount code toCode
        = ((Account.transfer a tgt amount code toCode).src,
            (Account.transfer a tgt amount code toCode).tgt)) ∧
    ((m.addAccount a).err = none → Ex3.add_account m a = (m.addAccount a).mgr) := by
  have hdep : ∀ (b : Account) (c : String), (b.deposit amount c).err = none →
      Ex3.deposit b amount c = (b.deposit amount c).acct := by
    intro b c h
    by_cases hamt : amount ≤ 0
    · rw [deposit_nonpos b amount c hamt] at h
      simp at h
    · cases hf : b.find c with
      | none =>
        rw [deposit_not_found b amount c (not_le.mp hamt) hf] at h
        simp at h
      | some p =>
        rw [deposit_found b amount c p.1 p.2 (not_le.mp hamt) hf,
          ex3_deposit_found b amount c p.1 p.2 hf]
  have hwd : (a.withdraw amount code).err = none →
      Ex3.withdraw a amount code = (a.withdraw amount code).acct := by
    intro h
    cases hf : a.find code with
    | none =>
      rw [withdraw_not_found a amount code hf] at h
      simp at h
    | some p =>
      by_cases hx : amount * p.2.conversionRateToBase ≤ 0
      · rw [withdraw_nonpos a amount code p.1 p.2 hf hx] at h
        simp at h
      · by_cases hb : a.balances.getD p.1 0 < amount * p.2.conversionRateToBase
        · rw [withdraw_insufficient a amount code p.1 p.2 hf (not_le.mp hx) hb] at h
          simp at h
        · rw [withdraw_found a amount code p.1 p.2 hf (not_le.mp hx) (not_lt.mp hb),
            ex3_withdraw_found a amount code p.1 p.2 hf]
  refine ⟨hdep a code, hwd, ?_, ?_⟩
  · intro h
    cases hw : (a.withdraw amount code).err with
    | some e =>
      rw [transfer_withdraw_failed a tgt amount code toCode e hw] at h
      simp at h
    | none =>
      rw [transfer_withdraw_ok a tgt amount code toCode hw] at h ⊢
      simp only [] at h ⊢
      simp only [Ex3.transfer, hwd hw, hdep tgt toCode h]
  · intro h
    unfold AccountManager.addAccount at h ⊢
    unfold Ex3.add_account
    by_cases hc : m.accountCount ≥ MAX_ACCOUNTS
    · rw [if_pos hc] at h
      simp at h
    · rw [if_neg hc, if_neg hc]

theorem variants_agree_on_success_witness :
    (alice.deposit 1000 "USD").err = none ∧
      Ex3.deposit alice 1000 "USD" = (alice.deposit 1000 "USD").acct :=
  have h : (alice.deposit 1000 "USD").err = none := by
    rw [deposit_found alice 1000 "USD" 0 usd (by norm_num) rfl]
  ⟨h, (variants_agree_on_success alice bob 1000 "USD" "GBP" AccountManager.new).1 h⟩

theorem sum_set (bs : List ℚ) (i : Nat) (x : ℚ) (hi : i < bs.length) :
    (bs.set i x).sum = bs.sum - bs.getD i 0 + x := by
  induction bs generalizing i with
  | nil => simp at hi
  | cons b rest ih =>
    cases i with
    | zero =>
      simp only [List.set_cons_zero, List.sum_cons, List.getD_cons_zero]
      ring
    | succ i =>
      have hi2 : i < rest.length := by simpa using hi
      simp only [List.set_cons_succ, List.sum_cons, ih i hi2, List.getD_cons_succ]
      ring

/-- C20. For two distinct well-formed accounts, `transfer` returns normally
exactly when the search for `fromCurrency` on the source selects a position
`i` and currency `c` with `amount * rate(c) > 0` and
`balances[i] ≥ amount * rate(c)`, the amount is positive, and the search for
`toCurrency` on the target selects a position `j` and currency `d`. In that
case the balance at `i` of the source decreases by `amount * rate(c)`, the
balance at `j` of the target increases by `amount * rate(d)`, every other
balance and both currency lists are unchanged, and the sum of all balances of
the two accounts changes by `amount * (rate(d) - rate(c))`. -/
theorem transfer_success_iff (src tgt : Account) (amount : ℚ) (fromC toC : String)
    (hs : src.WF) (ht : tgt.WF) :
    ((Account.transfer src tgt amount fromC toC).err = none ↔
      ∃ i c j d, src.find fromC = some (i, c) ∧ 0 < amount * c.conversionRateToBase ∧
        amount * c.conversionRateToBase ≤ src.balances.getD i 0 ∧ 0 < amount ∧
        tgt.find toC = some (j, d)) ∧
    (∀ i c j d, src.find fromC = some (i, c) → tgt.find toC = some (j, d) →
      (Account.transfer src tgt amount fromC toC).err = none →
      (Account.transfer src tgt amount fromC toC).src.balances.getD i 0
          = src.balances.getD i 0 - amount * c.conversionRateToBase ∧
        (Account.transfer src tgt amount fromC toC).tgt.balances.getD j 0
          = tgt.balances.getD j 0 + amount * d.conversionRateToBase ∧
        (∀ k, k ≠ i →
          (Account.transfer src tgt amount fromC toC).src.balances[k]? = src.balances[k]?) ∧
        (∀ k, k ≠ j →
          (Account.transfer src tgt amount fromC toC).tgt.balances[k]? = tgt.balances[k]?) ∧
        (Account.transfer src tgt amount fromC toC).src.currencies = src.currencies ∧
        (Account.transfer src tgt amount fromC toC).tgt.currencies = tgt.currencies ∧
        ((Account.transfer src tgt amount fromC toC).src.balances.sum
            + (Account.transfer src tgt amount fromC toC).tgt.balances.sum)
          - (src.balances.sum + tgt.balances.sum)
          = amount * (d.conversionRateToBase - c.conversionRateToBase)) := by
  have key : ∀ i c j d, src.find fromC = some (i, c) → 0 < amount * c.conversionRateToBase →
      amount * c.conversionRateToBase ≤ src.balances.getD i 0 → 0 < amount →
      tgt.find toC = some (j, d) →
      Account.transfer src tgt amount fromC toC =
        { src := { src with balances :=
                    src.balances.set i (src.balances.getD i 0 - amount * c.conversionRateToBase) },
          tgt := { tgt with balances :=
                    tgt.balances.set j (tgt.balances.getD j 0 + amount * d.conversionRateToBase) },
          err := none } := by
    intro i c j d hf hpos hbal hamt hg
    have hw := withdraw_found src amount fromC i c hf hpos hbal
    rw [transfer_withdraw_ok src tgt amount fromC toC (by rw [hw]), hw,
      deposit_found tgt amount toC j d hamt hg]
  have conds : (Account.transfer src tgt amount fromC toC).err = none →
      ∃ i c j d, src.find fromC = some (i, c) ∧ 0 < amount * c.conversionRateToBase ∧
        amount * c.conversionRateToBase ≤ src.balances.getD i 0 ∧ 0 < amount ∧
        tgt.find toC = some (j, d) := by
    intro h
    cases hw : (src.withdraw amount fromC).err with
    | some e =>
      rw [transfer_withdraw_failed src tgt amount fromC toC e hw] at h
      simp at h
    | none =>
      rw [transfer_withdraw_ok src tgt amount fromC toC hw] at h
      simp only [] at h
      cases hf : src.find fromC with
      | none =>
        rw [withdraw_not_found src amount fromC hf] at hw
        simp at hw
      | some p =>
        by_cases hx : amount * p.2.conversionRateToBase ≤ 0
        · rw [withdraw_nonpos src amount fromC p.1 p.2 hf hx] at hw
          simp at hw
        · by_cases hb : src.balances.getD p.1 0 < amount * p.2.conversionRateToBase
          · rw [withdraw_insufficient src amount fromC p.1 p.2 hf (not_le.mp hx) hb] at hw
            simp at hw
          · by_cases hamt : amount ≤ 0
            · rw [deposit_nonpos tgt amount toC hamt] at h
              simp at h
            · cases hg : tgt.find toC with
              | none =>
                rw [deposit_not_found tgt amount toC (not_le.mp hamt) hg] at h
                simp at h
              | some q =>
                exact ⟨p.1, p.2, q.1, q.2, rfl, not_le.mp hx, not_lt.mp hb, not_le.mp hamt, rfl⟩
  refine ⟨⟨conds, ?_⟩, ?_⟩
  · rintro ⟨i, c, j, d, hf, hpos, hbal, hamt, hg⟩
    rw [key i c j d hf hpos hbal hamt hg]
  · intro i c j d hf hg h
    obtain ⟨i2, c2, j2, d2, hf2, hpos, hbal, hamt, hg2⟩ := conds h
    rw [hf] at hf2
    rw [hg] at hg2
    simp only [Option.some.injEq, Prod.mk.injEq] at hf2 hg2
    obtain ⟨rfl, rfl⟩ := hf2
    obtain ⟨rfl, rfl⟩ := hg2
    have hi : i < src.balances.length := by
      rw [hs]
      exact find_lt_length src fromC i c hf
    have hj : j < tgt.balances.length := by
      rw [ht]
      exact find_lt_length tgt toC j d hg
    rw [key i c j d hf hpos hbal hamt hg]
    refine ⟨getD_set_self _ _ _ hi, getD_set_self _ _ _ hj, ?_, ?_, rfl, rfl, ?_⟩
    · intro k hk
      exact List.getElem?_set_ne (Ne.symm hk)
    · intro k hk
      exact List.getElem?_set_ne (Ne.symm hk)
    · simp only [sum_set _ _ _ hi, sum_set _ _ _ hj]
      ring

theorem transfer_success_iff_witness :
    aliceFunded.WF ∧ bob.WF ∧
      ((Account.transfer aliceFunded bob 200 "USD" "GBP").err = none ↔
        ∃ i c j d, aliceFunded.find "USD" = some (i, c) ∧ 0 < 200 * c.conversionRateToBase ∧
          200 * c.conversionRateToBase ≤ aliceFunded.balances.getD i 0 ∧ (0 : ℚ) < 200 ∧
          bob.find "GBP" = some (j, d)) :=
  ⟨by decide, by decide,
    (transfer_success_iff aliceFunded bob 200 "USD" "GBP" (by decide) (by decide)).1⟩

theorem find_mem (a : Account) (code : String) (i : Nat) (c : Currency)
    (h : a.find code = some (i, c)) : c ∈ a.currencies := by
  have h3 := (findFrom_some_range code a.currencies 0 i c h).2.2
  exact List.getElem?_mem h3

theorem sound_new (id : Int) (owner : String) : (Account.new id owner).Sound := by
  refine ⟨rfl, ?_, ?_⟩ <;> simp [Account.new]

theorem sound_addCurrency (a : Account) (c : Currency) (h : a.Sound)
    (hc : 0 < c.conversionRateToBase) : (a.addCurrency c).Sound := by
  obtain ⟨h1, h2, h3⟩ := h
  refine ⟨?_, ?_, ?_⟩
  · unfold Account.WF at h1 ⊢
    simp [Account.addCurrency, h1]
  · intro d hd
    simp only [Account.addCurrency, List.mem_append, List.mem_singleton] at hd
    rcases hd with hd | rfl
    · exact h2 d hd
    · exact hc
  · intro b hb
    simp only [Account.addCurrency, List.mem_append, List.mem_singleton] at hb
    rcases hb with hb | rfl
    · exact h3 b hb
    · exact le_refl 0

theorem getD_nonneg (bs : List ℚ) (i : Nat) (h : ∀ b ∈ bs, 0 ≤ b) : 0 ≤ bs.getD i 0 := by
  rw [List.getD_eq_getElem?_getD]
  cases hb : bs[i]? with
  | none => exact le_refl 0
  | some b => exact h b (List.getElem?_mem hb)

theorem sound_set (a : Account) (i : Nat) (x : ℚ) (h : a.Sound) (hx : 0 ≤ x) :
    Account.Sound { a with balances := a.balances.set i x } := by
  obtain ⟨h1, h2, h3⟩ := h
  refine ⟨?_, h2, ?_⟩
  · unfold Account.WF at h1 ⊢
    simp [h1]
  · intro b hb
    rcases List.mem_or_eq_of_mem_set hb with hb | rfl
    · exact h3 b hb
    · exact hx

theorem sound_deposit (a : Account) (amount : ℚ) (code : String) (h : a.Sound) :
    (a.deposit amount code).acct.Sound := by
  by_cases hamt : amount ≤ 0
  · rw [deposit_nonpos a amount code hamt]
    exact h
  · cases hf : a.find code with
    | none =>
      rw [deposit_not_found a amount code (not_le.mp hamt) hf]
      exact h
    | some p =>
      rw [deposit_found a amount code p.1 p.2 (not_le.mp hamt) hf]
      apply sound_set a _ _ h
      have hr := h.2.1 p.2 (find_mem a code p.1 p.2 hf)
      have hb := getD_nonneg a.balances p.1 h.2.2
      have := mul_pos (not_le.mp hamt) hr
      linarith

theorem sound_withdraw (a : Account) (amount : ℚ) (code : String) (h : a.Sound) :
    (a.withdraw amount code).acct.Sound := by
  cases hf : a.find code with
  | none =>
    rw [withdraw_not_found a amount code hf]
    exact h
  | some p =>
    by_cases hx : amount * p.2.conversionRateToBase ≤ 0
    · rw [withdraw_nonpos a amount code p.1 p.2 hf hx]
      exact h
    · by_cases hb : a.balances.getD p.1 0 < amount * p.2.conversionRateToBase
      · rw [withdraw_insufficient a amount code p.1 p.2 hf (not_le.mp hx) hb]
        exact h
      · rw [withdraw_found a amount code p.1 p.2 hf (not_le.mp hx) (not_lt.mp hb)]
        apply sound_set a _ _ h
        linarith [not_lt.mp hb]

theorem sound_pool_set (pool : List Account) (k : Nat) (a : Account)
    (h : ∀ b ∈ pool, b.Sound) (ha : a.Sound) : ∀ b ∈ pool.set k a, b.Sound := by
  intro b hb
  rcases List.mem_or_eq_of_mem_set hb with hb | rfl
  · exact h b hb
  · exact ha

theorem sound_step (pool : List Account) (c : Call) (h : ∀ a ∈ pool, a.Sound)
    (hc : c.RateOk) : ∀ a ∈ step pool c, a.Sound := by
  cases c with
  | addCurrency k cur =>
    cases hk : pool[k]? with
    | none =>
      simp only [step, hk]
      exact h
    | some a =>
      simp only [step, hk]
      exact sound_pool_set pool k _ h
        (sound_addCurrency a cur (h a (List.getElem?_mem hk)) hc)
  | deposit k amount code =>
    cases hk : pool[k]? with
    | none =>
      simp only [step, hk]
      exact h
    | some a =>
      simp only [step, hk]
      exact sound_pool_set pool k _ h (sound_deposit a amount code (h a (List.getElem?_mem hk)))
  | withdraw k amount code =>
    cases hk : pool[k]? with
    | none =>
      simp only [step, hk]
      exact h
    | some a =>
      simp only [step, hk]
      exact sound_pool_set pool k _ h (sound_withdraw a amount code (h a (List.getElem?_mem hk)))
  | transfer k l amount fromC toC =>
    cases hk : pool[k]? with
    | none =>
      simp only [step, hk]
      exact h
    | some a =>
      have h1 := sound_pool_set pool k _ h
        (sound_withdraw a amount fromC (h a (List.getElem?_mem hk)))
      cases hw : (a.withdraw amount fromC).err with
      | some e =>
        simp only [step, hk, hw]
        exact h1
      | none =>
        cases hl : (pool.set k (a.withdraw amount fromC).acct)[l]? with
        | none =>
          simp only [step, hk, hw, hl]
          exact h1
        | some b =>
          simp only [step, hk, hw, hl]
          exact sound_pool_set _ l _ h1
            (sound_deposit b amount toC (h1 b (List.getElem?_mem hl)))

theorem sound_run (pool : List Account) (calls : List Call) (h : ∀ a ∈ pool, a.Sound)
    (hc : ∀ c ∈ calls, c.RateOk) : ∀ a ∈ run pool calls, a.Sound := by
  induction calls generalizing pool with
  | nil => exact h
  | cons c rest ih =>
    unfold run
    exact ih (step pool c) (sound_step pool c h (hc c (List.mem_cons_self c rest)))
      (fun d hd => hc d (List.mem_cons_of_mem c hd))

/-- The transfer step between two different accounts is `Account.transfer`. -/
theorem step_transfer_distinct (pool : List Account) (k l : Nat) (a b : Account) (amount : ℚ)
    (fromC toC : String) (hk : pool[k]? = some a) (hl : pool[l]? = some b) (hne : k ≠ l) :
    step pool (Call.transfer k l amount fromC toC)
      = (pool.set k (Account.transfer a b amount fromC toC).src).set l
          (Account.transfer a b amount fromC toC).tgt := by
  have hl2 : (pool.set k (a.withdraw amount fromC).acct)[l]? = some b := by
    rw [List.getElem?_set_ne hne]
    exact hl
  unfold step
  simp only [hk]
  cases hw : (a.withdraw amount fromC).err with
  | some e =>
    rw [transfer_withdraw_failed a b amount fromC toC e hw]
    simp only []
    have hl3 : (pool.set k (a.withdraw amount fromC).acct)[l]? = some b := hl2
    apply List.ext_getElem?
    intro j
    by_cases hj : l = j
    · subst hj
      have hlt : l < (pool.set k (a.withdraw amount fromC).acct).length := by
        rcases List.getElem?_eq_some_iff.mp hl3 with ⟨hlt, -⟩
        exact hlt
      rw [List.getElem?_set_self hlt, hl3]
    · rw [List.getElem?_set_ne hj]
  | none =>
    rw [transfer_withdraw_ok a b amount fromC toC hw]
    simp only [hl2]

/-- C16. Starting from newly constructed accounts, after any sequence of
`addCurrency` (with a positive rate), `deposit`, `withdraw` and `transfer`
calls, each returning or throwing, no balance of any account is negative; and
on any well-formed account, the balance withdrawn from is not negative after
a `withdraw` that returned normally. -/
theorem balances_never_negative (people : List (Int × String)) (calls : List Call)
    (hc : ∀ c ∈ calls, c.RateOk) :
    (∀ a ∈ run (newAccounts people) calls, ∀ b ∈ a.balances, 0 ≤ b) ∧
    (∀ (a : Account) (amount : ℚ) (code : String) (i : Nat) (c : Currency), a.WF →
      a.find code = some (i, c) → (a.withdraw amount code).err = none →
      0 ≤ (a.withdraw amount code).acct.balances.getD i 0) := by
  constructor
  · intro a ha
    have hnew : ∀ b ∈ newAccounts people, b.Sound := by
      intro b hb
      unfold newAccounts at hb
      obtain ⟨p, -, rfl⟩ := List.mem_map.mp hb
      exact sound_new p.1 p.2
    exact (sound_run (newAccounts people) calls hnew hc a ha).2.2
  · intro a amount code i c hwf hf hok
    have hi : i < a.balances.length := by
      rw [hwf]
      exact find_lt_length a code i c hf
    by_cases hx : amount * c.conversionRateToBase ≤ 0
    · rw [withdraw_nonpos a amount code i c hf hx] at hok
      simp at hok
    · by_cases hb : a.balances.getD i 0 < amount * c.conversionRateToBase
      · rw [withdraw_insufficient a amount code i c hf (not_le.mp hx) hb] at hok
        simp at hok
      · rw [withdraw_found a amount code i c hf (not_le.mp hx) (not_lt.mp hb)]
        simp only []
        rw [getD_set_self _ _ _ hi]
        linarith [not_lt.mp hb]

theorem balances_never_negative_witness :
    (∀ c ∈ mainCalls, c.RateOk) ∧
      ∀ a ∈ run (newAccounts [(1, "Alice"), (2, "Bob")]) mainCalls, ∀ b ∈ a.balances, 0 ≤ b :=
  have h : ∀ c ∈ mainCalls, c.RateOk := by
    intro c hc
    simp only [mainCalls, List.mem_cons, List.mem_singleton, List.not_mem_nil, or_false] at hc
    rcases hc with rfl | rfl | rfl | rfl | rfl | rfl | rfl <;>
      norm_num [Call.RateOk, usd, eur, gbp]
  ⟨h, (balances_never_negative [(1, "Alice"), (2, "Bob")] mainCalls h).1⟩

/-! ## Properties of the text conversions -/

theorem digitChar_toNat (d : Nat) (h : d < 10) : (digitChar d).toNat = 48 + d := by
  interval_cases d <;> rfl

theorem isDigit_digitChar (d : Nat) (h : d < 10) : isDigit (digitChar d) = true := by
  interval_cases d <;> rfl

theorem digitVal_digitChar (d : Nat) (h : d < 10) : digitVal (digitChar d) = d := by
  interval_cases d <;> rfl

theorem isSpace_digitChar (d : Nat) (h : d < 10) : isSpace (digitChar d) = false := by
  interval_cases d <;> rfl

theorem digitsValue_append (l : List Char) (c : Char) :
    digitsValue (l ++ [c]) = digitsValue l * 10 + digitVal c := by
  simp [digitsValue, List.foldl_append]

theorem natDigits_isDigit (n : Nat) : ∀ c ∈ natDigits n, isDigit c = true := by
  induction n using Nat.strong_induction_on with
  | _ n ih =>
    rw [natDigits]
    split
    · intro c hc
      simp only [List.mem_singleton] at hc
      rw [hc]
      exact isDigit_digitChar n (by assumption)
    · intro c hc
      rcases List.mem_append.mp hc with hc | hc
      · exact ih (n / 10) (by omega) c hc
      · simp only [List.mem_singleton] at hc
        rw [hc]
        exact isDigit_digitChar _ (by omega)

theorem natDigits_ne_nil (n : Nat) : natDigits n ≠ [] := by
  rw [natDigits]
  split <;> simp

theorem digitsValue_natDigits (n : Nat) : digitsValue (natDigits n) = n := by
  induction n using Nat.strong_induction_on with
  | _ n ih =>
    rw [natDigits]
    split
    · rename_i h
      simp [digitsValue, digitVal_digitChar n h]
    · rw [digitsValue_append, ih (n / 10) (by omega), digitVal_digitChar _ (by omega)]
      omega

theorem takeWhile_append_stop (p : Char → Bool) (l : List Char) (c : Char) (r : List Char)
    (hl : ∀ x ∈ l, p x = true) (hc : p c = false) : (l ++ c :: r).takeWhile p = l := by
  induction l with
  | nil => simp [List.takeWhile, hc]
  | cons x xs ih =>
    simp only [List.cons_append, List.takeWhile_cons, hl x (List.mem_cons_self x xs), if_true]
    rw [ih (fun y hy => hl y (List.mem_cons_of_mem x hy))]

theorem dropWhile_append_stop (p : Char → Bool) (l : List Char) (c : Char) (r : List Char)
    (hl : ∀ x ∈ l, p x = true) (hc : p c = false) : (l ++ c :: r).dropWhile p = c :: r := by
  induction l with
  | nil => simp [List.dropWhile, hc]
  | cons x xs ih =>
    simp only [List.cons_append, List.dropWhile_cons, hl x (List.mem_cons_self x xs), if_true]
    exact ih (fun y hy => hl y (List.mem_cons_of_mem x hy))

theorem skipSpace_stop (pre : List Char) (c : Char) (r : List Char) (e : Bool)
    (hpre : ∀ x ∈ pre, isSpace x = true) (hc : isSpace c = false) :
    skipSpace { rest := pre ++ c :: r, eof := e } = { rest := c :: r, eof := e } := by
  simp [skipSpace, dropWhile_append_stop isSpace pre c r hpre hc]

theorem takeRun_stop (p : Char → Bool) (l : List Char) (c : Char) (r : List Char) (e : Bool)
    (hl : ∀ x ∈ l, p x = true) (hc : p c = false) :
    takeRun p { rest := l ++ c :: r, eof := e } = (l, { rest := c :: r, eof := e }) := by
  simp [takeRun, takeWhile_append_stop p l c r hl hc, dropWhile_append_stop p l c r hl hc]

theorem skipSpace_idem (f : FileIn) : skipSpace (skipSpace f) = skipSpace f := by
  cases f with
  | mk rest eof =>
    simp only [skipSpace, List.dropWhile_idempotent]
    simp [Bool.or_assoc]

theorem isSpace_of_isDigit (c : Char) (h : isDigit c = true) : isSpace c = false := by
  by_contra hs
  simp only [isSpace, Bool.not_eq_false, Bool.or_eq_true, beq_iff_eq] at hs
  rcases hs with ((((rfl | rfl) | rfl) | rfl) | rfl) | rfl <;> exact absurd h (by decide)

theorem skipSpace_item (pre l r : List Char) (e : Bool) (hpre : ∀ x ∈ pre, isSpace x = true)
    (hne : l ≠ []) (hl : ∀ x ∈ l, isSpace x = false) :
    skipSpace { rest := pre ++ l ++ r, eof := e } = { rest := l ++ r, eof := e } := by
  obtain ⟨d, ds, rfl⟩ := List.exists_cons_of_ne_nil hne
  have := skipSpace_stop pre d (ds ++ r) e hpre (hl d (List.mem_cons_self d ds))
  simpa using this

theorem natDigits_not_space (n : Nat) : ∀ x ∈ natDigits n, isSpace x = false :=
  fun x hx => isSpace_of_isDigit x (natDigits_isDigit n x hx)

theorem takeSign_digits (n : Nat) (r : List Char) (e : Bool) :
    takeSign { rest := natDigits n ++ r, eof := e }
      = (false, { rest := natDigits n ++ r, eof := e }) := by
  obtain ⟨d, ds, hd⟩ := List.exists_cons_of_ne_nil (natDigits_ne_nil n)
  have hdig : isDigit d = true := natDigits_isDigit n d (by rw [hd]; simp)
  rw [hd]
  unfold takeSign
  split
  · rename_i heq
    simp only [List.cons_append, List.cons.injEq] at heq
    rw [heq.1] at hdig
    exact absurd hdig (by decide)
  · rename_i heq
    simp only [List.cons_append, List.cons.injEq] at heq
    rw [heq.1] at hdig
    exact absurd hdig (by decide)
  · rfl

theorem scanInt_fmtInt (pre : List Char) (z : Int) (c : Char) (r : List Char) (e : Bool)
    (hpre : ∀ x ∈ pre, isSpace x = true) (hc : isDigit c = false)
    (hz : -2147483648 ≤ z ∧ z ≤ 2147483647) :
    scanInt { rest := pre ++ fmtInt z ++ c :: r, eof := e }
      = Scan.ok z { rest := c :: r, eof := e } := by
  have h2 := takeRun_stop isDigit (natDigits z.natAbs) c r e (natDigits_isDigit _) hc
  unfold fmtInt
  by_cases hneg : z < 0
  · rw [if_pos hneg]
    have h1 : skipSpace { rest := pre ++ '-' :: natDigits z.natAbs ++ c :: r, eof := e }
        = { rest := '-' :: (natDigits z.natAbs ++ c :: r), eof := e } := by
      have := skipSpace_stop pre '-' (natDigits z.natAbs ++ c :: r) e hpre rfl
      simpa using this
    have hv : -((z.natAbs : Nat) : Int) = z := by omega
    simp only [scanInt, h1, takeSign, h2, digitsValue_natDigits, hv]
    simp [natDigits_ne_nil, hz]
  · rw [if_neg hneg]
    have h1 := skipSpace_item pre (natDigits z.natAbs) (c :: r) e hpre (natDigits_ne_nil _)
      (natDigits_not_space _)
    have hv : ((z.natAbs : Nat) : Int) = z := by omega
    simp only [scanInt, h1, takeSign_digits, h2, digitsValue_natDigits, hv]
    simp [natDigits_ne_nil, hz]

theorem scanSize_natDigits (pre : List Char) (n : Nat) (c : Char) (r : List Char) (e : Bool)
    (hpre : ∀ x ∈ pre, isSpace x = true) (hc : isDigit c = false)
    (hn : n < 18446744073709551616) :
    scanSize { rest := pre ++ natDigits n ++ c :: r, eof := e }
      = Scan.ok n { rest := c :: r, eof := e } := by
  have h2 := takeRun_stop isDigit (natDigits n) c r e (natDigits_isDigit _) hc
  have h1 := skipSpace_item pre (natDigits n) (c :: r) e hpre (natDigits_ne_nil _)
    (natDigits_not_space _)
  simp only [scanSize, h1, takeSign_digits, h2, digitsValue_natDigits]
  simp [natDigits_ne_nil, not_le.mpr hn]

theorem scanStr_token (cap : Nat) (pre : List Char) (s : String) (c : Char) (r : List Char)
    (e : Bool) (hpre : ∀ x ∈ pre, isSpace x = true) (hc : isSpace c = true)
    (hne : s.data ≠ []) (hs : ∀ x ∈ s.data, isSpace x = false ∧ x ≠ '\x00')
    (hcap : s.utf8ByteSize < cap) :
    scanStr cap { rest := pre ++ s.data ++ c :: r, eof := e }
      = Scan.ok s { rest := c :: r, eof := e } := by
  have h1 := skipSpace_item pre s.data (c :: r) e hpre hne (fun x hx => (hs x hx).1)
  have h2 := takeRun_stop (fun c => !isSpace c) s.data c r e
    (fun x hx => by simp [(hs x hx).1]) (by simp [hc])
  have h3 : s.data.takeWhile (fun c => c != '\x00') = s.data := by
    rw [List.takeWhile_eq_self_iff]
    intro x hx
    simp [(hs x hx).2]
  have hemp : (s.data ++ c :: r).isEmpty = false := by simp
  have heta : String.mk s.data = s := rfl
  simp only [scanStr, h1, h2, h3, hemp, heta, if_neg (not_le.mpr hcap)]
  simp

theorem cstr_eq (s : String) (hs : ∀ x ∈ s.data, x ≠ '\x00') : cstr s = s.data := by
  unfold cstr
  rw [List.takeWhile_eq_self_iff]
  intro x hx
  simp [hs x hx]

theorem roundHalfEven_bounds (x : ℚ) : ⌊x⌋ ≤ roundHalfEven x ∧ roundHalfEven x ≤ ⌊x⌋ + 1 := by
  unfold roundHalfEven
  split
  · omega
  · split
    · omega
    · split <;> omega

theorem roundHalfEven_sign (x : ℚ) :
    (x < 0 → roundHalfEven x ≤ 0) ∧ (0 ≤ x → 0 ≤ roundHalfEven x) := by
  have hb := roundHalfEven_bounds x
  constructor
  · intro hx
    have : ⌊x⌋ < 0 := Int.floor_lt.mpr (by simpa using hx)
    omega
  · intro hx
    have : 0 ≤ ⌊x⌋ := Int.floor_nonneg.mpr hx
    omega

theorem fixed2_value (A : Nat) :
    ((A / 100 : Nat) : ℚ) + (((A % 100 / 10) * 10 + A % 10 : Nat) : ℚ) / 10 ^ 2 = (A : ℚ) / 100 := by
  have h1 : (A % 100 / 10) * 10 + A % 10 = A % 100 := by omega
  have h2 : A = 100 * (A / 100) + A % 100 := by omega
  rw [h1]
  have h3 : (A : ℚ) = 100 * ((A / 100 : Nat) : ℚ) + ((A % 100 : Nat) : ℚ) := by
    exact_mod_cast h2
  rw [h3]
  norm_num
  ring

theorem nextIn_cons (cs : List Char) (c : Char) (r : List Char) (e : Bool) :
    nextIn cs { rest := c :: r, eof := e } = cs.contains c := rfl

theorem nextIn_digits (cs : List Char) (n : Nat) (r : List Char) (e : Bool)
    (hcs : ∀ x ∈ cs, isDigit x = false) :
    nextIn cs { rest := natDigits n ++ r, eof := e } = false := by
  obtain ⟨d, ds, hd⟩ := List.exists_cons_of_ne_nil (natDigits_ne_nil n)
  have hdig : isDigit d = true := natDigits_isDigit n d (by rw [hd]; simp)
  rw [hd, List.cons_append, nextIn_cons]
  by_contra hcon
  simp only [Bool.not_eq_false, List.contains_iff_exists_mem_beq, beq_iff_eq] at hcon
  obtain ⟨y, hy, rfl⟩ := hcon
  rw [hcs _ hy] at hdig
  exact absurd hdig (by decide)

theorem not_digit_of_space (c : Char) (hc : isSpace c = true) : isDigit c = false := by
  by_contra h
  have := isSpace_of_isDigit c (by simpa using h)
  rw [hc] at this
  exact absurd this (by decide)

theorem not_exp_of_space (c : Char) (hc : isSpace c = true) : ['e', 'E'].contains c = false := by
  by_contra h
  simp only [Bool.not_eq_false, List.contains_iff_exists_mem_beq, beq_iff_eq] at h
  obtain ⟨y, hy, rfl⟩ := h
  simp only [List.mem_cons, List.mem_singleton, List.not_mem_nil, or_false] at hy
  rcases hy with rfl | rfl <;> exact absurd hc (by decide)

theorem two_digits_isDigit (a b : Nat) (ha : a < 10) (hb : b < 10) :
    ∀ x ∈ [digitChar a, digitChar b], isDigit x = true := by
  intro x hx
  simp only [List.mem_cons, List.mem_singleton, List.not_mem_nil, or_false] at hx
  rcases hx with rfl | rfl
  · exact isDigit_digitChar _ ha
  · exact isDigit_digitChar _ hb

theorem point_not_digit : isDigit '.' = false := rfl

theorem inf_not_digit : ∀ x ∈ ['i', 'I'], isDigit x = false := by
  intro x hx
  simp only [List.mem_cons, List.mem_singleton, List.not_mem_nil, or_false] at hx
  rcases hx with rfl | rfl <;> rfl

theorem nan_not_digit : ∀ x ∈ ['n', 'N'], isDigit x = false := by
  intro x hx
  simp only [List.mem_cons, List.mem_singleton, List.not_mem_nil, or_false] at hx
  rcases hx with rfl | rfl <;> rfl

theorem scanExponent_absent (marks : List Char) (f : FileIn) (h : nextIn marks f = false) :
    scanExponent marks f = (0, f) := by
  unfold scanExponent
  rw [if_neg (by rw [h]; simp)]

theorem scaled_zero (neg : Bool) (v b : ℚ) :
    scaled neg v b 0 = if neg then -v else v := by
  simp [scaled]

theorem scanMantissa_fixed (A : Nat) (c : Char) (r : List Char) (e : Bool) (neg : Bool)
    (hc : isSpace c = true) :
    scanMantissa neg { rest := natDigits (A / 100) ++
        ('.' :: digitChar (A % 100 / 10) :: digitChar (A % 10) :: c :: r), eof := e }
      = Scan.ok (some (if neg then -((A : ℚ) / 100) else (A : ℚ) / 100))
          { rest := c :: r, eof := e } := by
  have hd1 : A % 100 / 10 < 10 := by omega
  have hd2 : A % 10 < 10 := by omega
  have h1 := nextIn_digits ['i', 'I'] (A / 100)
    ('.' :: digitChar (A % 100 / 10) :: digitChar (A % 10) :: c :: r) e inf_not_digit
  have h1b := nextIn_digits ['n', 'N'] (A / 100)
    ('.' :: digitChar (A % 100 / 10) :: digitChar (A % 10) :: c :: r) e nan_not_digit
  have h2 := takeRun_stop isDigit (natDigits (A / 100)) '.'
    (digitChar (A % 100 / 10) :: digitChar (A % 10) :: c :: r) e (natDigits_isDigit _)
    point_not_digit
  have h3 := takeRun_stop isDigit [digitChar (A % 100 / 10), digitChar (A % 10)] c r e
    (two_digits_isDigit _ _ hd1 hd2) (not_digit_of_space c hc)
  have h4 : ∀ t : List Char, nextIn ['x', 'X'] { rest := '.' :: t, eof := e } = false :=
    fun _ => rfl
  have h5 := scanExponent_absent ['e', 'E'] { rest := c :: r, eof := e }
    (not_exp_of_space c hc)
  have h6 : digitsValue [digitChar (A % 100 / 10), digitChar (A % 10)]
      = (A % 100 / 10) * 10 + A % 10 := by
    simp [digitsValue, digitVal_digitChar _ hd1, digitVal_digitChar _ hd2]
  simp only [List.cons_append, List.nil_append] at h3
  unfold scanMantissa
  rw [if_neg (by rw [h1b]; simp), if_neg (by rw [h1]; simp)]
  simp only [h2, h4, takeFraction, h3, h5, h6, digitsValue_natDigits, scaled_zero]
  have hv := fixed2_value A
  simp only [List.length_cons, List.length_nil, Nat.zero_add, Nat.reduceAdd, hv]
  simp

theorem scanDouble_fmtFixed2 (pre : List Char) (x : ℚ) (c : Char) (r : List Char) (e : Bool)
    (hpre : ∀ y ∈ pre, isSpace y = true) (hc : isSpace c = true) :
    scanDouble { rest := pre ++ fmtFixed2 x ++ c :: r, eof := e }
      = Scan.ok (some (round2 x)) { rest := c :: r, eof := e } := by
  have hm := fun neg =>
    scanMantissa_fixed (roundHalfEven (x * 100)).natAbs c r e neg hc
  have hsign := roundHalfEven_sign (x * 100)
  unfold fmtFixed2 round2
  by_cases hneg : x < 0
  · rw [if_pos hneg]
    have h1 := skipSpace_stop pre '-' (natDigits ((roundHalfEven (x * 100)).natAbs / 100) ++
      ('.' :: digitChar ((roundHalfEven (x * 100)).natAbs % 100 / 10) ::
        digitChar ((roundHalfEven (x * 100)).natAbs % 10) :: c :: r)) e hpre rfl
    have hR : roundHalfEven (x * 100) ≤ 0 := hsign.1 (by linarith)
    have hcast : -(((roundHalfEven (x * 100)).natAbs : ℚ) / 100)
        = (roundHalfEven (x * 100) : ℚ) / 100 := by
      have : ((roundHalfEven (x * 100)).natAbs : Int) = -roundHalfEven (x * 100) := by omega
      have h2 : (((roundHalfEven (x * 100)).natAbs : Int) : ℚ)
          = ((-roundHalfEven (x * 100) : Int) : ℚ) := by rw [this]
      simp only [Int.cast_natCast, Int.cast_neg] at h2
      rw [h2]
      ring
    simp only [List.append_assoc, List.cons_append, List.nil_append] at h1 ⊢
    simp only [scanDouble, h1, takeSign, hm true, if_true, hcast]
    simp
  · rw [if_neg hneg]
    have h1 := skipSpace_item pre (natDigits ((roundHalfEven (x * 100)).natAbs / 100))
      ('.' :: digitChar ((roundHalfEven (x * 100)).natAbs % 100 / 10) ::
        digitChar ((roundHalfEven (x * 100)).natAbs % 10) :: c :: r) e hpre
      (natDigits_ne_nil _) (natDigits_not_space _)
    have hR : 0 ≤ roundHalfEven (x * 100) := hsign.2 (by linarith [not_lt.mp hneg])
    have hcast : (((roundHalfEven (x * 100)).natAbs : ℚ) / 100)
        = (roundHalfEven (x * 100) : ℚ) / 100 := by
      have : ((roundHalfEven (x * 100)).natAbs : Int) = roundHalfEven (x * 100) := by omega
      have h2 : (((roundHalfEven (x * 100)).natAbs : Int) : ℚ)
          = ((roundHalfEven (x * 100) : Int) : ℚ) := by rw [this]
      simp only [Int.cast_natCast] at h2
      rw [h2]
    simp only [List.append_assoc, List.cons_append, List.nil_append] at h1 ⊢
    simp only [scanDouble, h1, takeSign_digits, hm false, hcast]
    simp [natDigits_ne_nil]

theorem scanStr_skipSpace (cap : Nat) (f : FileIn) :
    scanStr cap (skipSpace f) = scanStr cap f := by
  unfold scanStr
  rw [skipSpace_idem]

theorem scanSize_skipSpace (f : FileIn) : scanSize (skipSpace f) = scanSize f := by
  unfold scanSize
  rw [skipSpace_idem]

theorem scanDouble_skipSpace (f : FileIn) : scanDouble (skipSpace f) = scanDouble f := by
  unfold scanDouble
  rw [skipSpace_idem]

theorem addLoaded_eq (a : Account) (c : Currency) (b : ℚ) :
    a.addLoaded c b
      = { a with currencies := a.currencies ++ [c], balances := a.balances ++ [b] } := by
  unfold Account.addLoaded Account.addCurrency
  simp

theorem space_space : ∀ x ∈ [' '], isSpace x = true := by
  intro x hx
  simp only [List.mem_singleton] at hx
  rw [hx]
  rfl

theorem space_newline : ∀ x ∈ ['\n'], isSpace x = true := by
  intro x hx
  simp only [List.mem_singleton] at hx
  rw [hx]
  rfl

theorem currency_round_trip (code0 : String) (rate0 : ℚ) (pre : List Char) (c : Currency)
    (r : List Char) (e : Bool) (hpre : ∀ x ∈ pre, isSpace x = true)
    (hne : c.code.data ≠ []) (hs : ∀ x ∈ c.code.data, isSpace x = false ∧ x ≠ '\x00')
    (hcap : c.code.utf8ByteSize < 4) :
    Currency.loadFromFile code0 rate0 { rest := pre ++ (c.saveToFile ++ r), eof := e }
      = some ({ code := c.code, conversionRateToBase := round2 c.conversionRateToBase },
          { rest := '\n' :: r, eof := e }) := by
  have h1 := scanStr_token 4 pre c.code ' ' (fmtFixed2 c.conversionRateToBase ++ '\n' :: r) e
    hpre rfl hne hs hcap
  have h2 := scanDouble_fmtFixed2 [' '] c.conversionRateToBase '\n' r e space_space rfl
  simp only [List.append_assoc, List.cons_append, List.nil_append, List.singleton_append]
    at h1 h2
  unfold Currency.loadFromFile Currency.saveToFile
  rw [cstr_eq c.code (fun x hx => (hs x hx).2)]
  simp only [List.append_assoc, List.cons_append, List.nil_append, List.singleton_append]
  rw [h1]
  simp only [scanDouble_skipSpace]
  rw [h2]

theorem loadLoop_round_trip (st : Stale) (bs : List ℚ) (cs : List Currency) (i : Nat)
    (acc : Account) (tail : List Char) (e : Bool)
    (hcodes : ∀ c ∈ cs, c.code.data ≠ [] ∧
      (∀ x ∈ c.code.data, isSpace x = false ∧ x ≠ '\x00') ∧ c.code.utf8ByteSize < 4) :
    Account.loadLoop st cs.length i acc
        { rest := '\n' :: (Account.saveFrom bs i cs ++ tail), eof := e }
      = some ({ acc with
            currencies := acc.currencies ++ cs.map (fun c =>
              { code := c.code, conversionRateToBase := round2 c.conversionRateToBase }),
            balances := acc.balances
              ++ (List.range cs.length).map (fun k => round2 (bs.getD (i + k) 0)) },
          { rest := '\n' :: tail, eof := e }) := by
  induction cs generalizing i acc with
  | nil => simp [Account.loadLoop, Account.saveFrom]
  | cons c rest ih =>
    obtain ⟨hne, hs, hcap⟩ := hcodes c (List.mem_cons_self c rest)
    have h1 := currency_round_trip (st.currencyCode i) (st.rate i) ['\n'] c
      (fmtFixed2 (bs.getD i 0) ++ '\n' :: (Account.saveFrom bs (i + 1) rest ++ tail)) e
      space_newline hne hs hcap
    have h2 := scanDouble_fmtFixed2 ['\n'] (bs.getD i 0) '\n'
      (Account.saveFrom bs (i + 1) rest ++ tail) e space_newline rfl
    have h3 := ih (i + 1)
      (acc.addLoaded { code := c.code, conversionRateToBase := round2 c.conversionRateToBase }
        (round2 (bs.getD i 0)))
      (fun d hd => hcodes d (List.mem_cons_of_mem c hd))
    simp only [List.append_assoc, List.cons_append, List.nil_append, List.singleton_append]
      at h1 h2
    rw [addLoaded_eq] at h3
    simp only [List.length_cons, Account.loadLoop, Account.saveFrom, List.append_assoc,
      List.cons_append, List.nil_append, List.singleton_append, h1, h2, addLoaded_eq, h3]
    simp only [List.map_cons, List.range_succ_eq_map, List.map_map, Nat.add_zero]
    have hfun : ((fun k => round2 (bs.getD (i + k) 0)) ∘ Nat.succ)
        = fun k => round2 (bs.getD (i + 1 + k) 0) := by
      funext k
      simp only [Function.comp, Nat.succ_eq_add_one]
      rw [Nat.add_assoc, Nat.add_comm 1 k]
    rw [hfun]

theorem map_range_getD (bs : List ℚ) :
    (List.range bs.length).map (fun k => round2 (bs.getD (0 + k) 0)) = bs.map round2 := by
  apply List.ext_getElem
  · simp
  · intro n h1 h2
    simp only [List.length_map, List.length_range] at h1
    simp [List.getD_eq_getElem?_getD, List.getElem?_eq_getElem h1]

theorem saveFrom_ends (bs : List ℚ) (i : Nat) (cs : List Currency) (hne : cs ≠ []) :
    ∃ body, Account.saveFrom bs i cs = body ++ ['\n'] := by
  induction cs generalizing i with
  | nil => exact absurd rfl hne
  | cons c rest ih =>
    by_cases hr : rest = []
    · subst hr
      exact ⟨c.saveToFile ++ fmtFixed2 (bs.getD i 0), by simp [Account.saveFrom]⟩
    · obtain ⟨body, hb⟩ := ih (i + 1) hr
      exact ⟨c.saveToFile ++ (fmtFixed2 (bs.getD i 0) ++ ['\n']) ++ body, by
        simp [Account.saveFrom, hb]⟩

theorem account_load_save (st : Stale) (a : Account) (pre tail : List Char) (e : Bool)
    (hpre : ∀ x ∈ pre, isSpace x = true) (hwf : a.WF)
    (hid : -2147483648 ≤ a.id ∧ a.id ≤ 2147483647) (howner : IsToken 100 a.owner)
    (hcount : a.currencies.length < 18446744073709551616)
    (hcodes : ∀ c ∈ a.currencies, IsToken 4 c.code) :
    Account.loadFromFile st { rest := pre ++ (a.saveToFile ++ tail), eof := e }
      = some (a.rounded, { rest := '\n' :: tail, eof := e }) := by
  obtain ⟨hne, hs, hcap⟩ := howner
  have h1 := scanInt_fmtInt pre a.id ' '
    (a.owner.data ++ ' ' :: (natDigits a.currencies.length
      ++ '\n' :: (Account.saveFrom a.balances 0 a.currencies ++ tail))) e hpre rfl hid
  have h2 := scanStr_token 100 [' '] a.owner ' '
    (natDigits a.currencies.length
      ++ '\n' :: (Account.saveFrom a.balances 0 a.currencies ++ tail)) e space_space rfl hne hs hcap
  have h3 := scanSize_natDigits [' '] a.currencies.length '\n'
    (Account.saveFrom a.balances 0 a.currencies ++ tail) e space_space rfl hcount
  have h4 := loadLoop_round_trip st a.balances a.currencies 0 (Account.new a.id a.owner) tail e
    hcodes
  simp only [List.append_assoc, List.cons_append, List.nil_append, List.singleton_append]
    at h1 h2 h3
  unfold Account.loadFromFile scanHeader Account.saveToFile
  rw [cstr_eq a.owner (fun x hx => (hs x hx).2)]
  simp only [List.append_assoc, List.cons_append, List.nil_append, List.singleton_append]
  rw [h1]
  simp only [scanStr_skipSpace, h2, scanSize_skipSpace, h3, h4]
  unfold Account.WF at hwf
  rw [← hwf, map_range_getD]
  simp [Account.rounded, Account.new]

theorem saveToFile_ends (a : Account) : ∃ body, a.saveToFile = body ++ ['\n'] := by
  unfold Account.saveToFile
  by_cases hcs : a.currencies = []
  · rw [hcs]
    exact ⟨fmtInt a.id ++ [' '] ++ cstr a.owner ++ [' '] ++ natDigits ([] : List Currency).length,
      by simp [Account.saveFrom]⟩
  · obtain ⟨body, hb⟩ := saveFrom_ends a.balances 0 a.currencies hcs
    exact ⟨fmtInt a.id ++ [' '] ++ cstr a.owner ++ [' '] ++ natDigits a.currencies.length
      ++ ['\n'] ++ body, by simp [hb]⟩

/-- C14 (as the code has it). For a well-formed account whose id fits an
`int`, whose owner is a token of fewer than 100 bytes and whose currency codes
are tokens of fewer than 4 bytes: the text of `saveToFile` ends with a
newline; `loadFromFile` on that text (after any white space, before any
further text) reads the record up to, not including, that last newline, and
returns the account with the same id and owner, the same codes in the same
order, and every rate and every balance rounded to two decimal places. -/
theorem saveToFile_loadFromFile (st : Stale) (a : Account) (pre tail : List Char) (e : Bool)
    (hpre : ∀ x ∈ pre, isSpace x = true) (hwf : a.WF)
    (hid : -2147483648 ≤ a.id ∧ a.id ≤ 2147483647) (howner : IsToken 100 a.owner)
    (hcount : a.currencies.length < 18446744073709551616)
    (hcodes : ∀ c ∈ a.currencies, IsToken 4 c.code) :
    (∃ body, a.saveToFile = body ++ ['\n']) ∧
      Account.loadFromFile st { rest := pre ++ (a.saveToFile ++ tail), eof := e }
        = some (a.rounded, { rest := '\n' :: tail, eof := e }) ∧
      a.rounded.id = a.id ∧ a.rounded.owner = a.owner ∧
      a.rounded.currencies.map (fun c => c.code) = a.currencies.map (fun c => c.code) ∧
      a.rounded.currencies.map (fun c => c.conversionRateToBase)
        = a.currencies.map (fun c => round2 c.conversionRateToBase) ∧
      a.rounded.balances = a.balances.map round2 :=
  ⟨saveToFile_ends a, account_load_save st a pre tail e hpre hwf hid howner hcount hcodes,
    rfl, rfl, by simp [Account.rounded], by simp [Account.rounded], rfl⟩

theorem isToken_of_chars (cap : Nat) (s : String) (h1 : s.data ≠ [])
    (h2 : s.data.all (fun x => !isSpace x && x != '\x00') = true)
    (h3 : s.utf8ByteSize < cap) : IsToken cap s := by
  refine ⟨h1, ?_, h3⟩
  intro x hx
  have := List.all_eq_true.mp h2 x hx
  simp only [Bool.and_eq_true, Bool.not_eq_true', bne_iff_ne, ne_eq] at this
  exact this

theorem fmtFixed2_eval (x : ℚ) (R : Int) (neg : Bool) (h : roundHalfEven (x * 100) = R)
    (hneg : (x < 0) = (neg = true)) :
    fmtFixed2 x = (if neg then ['-'] else []) ++ natDigits (R.natAbs / 100)
      ++ ['.', digitChar (R.natAbs % 100 / 10), digitChar (R.natAbs % 10)] := by
  unfold fmtFixed2
  rw [h]
  by_cases hx : x < 0
  · have : neg = true := by rw [← hneg]; exact hx
    rw [if_pos hx, this]
    rfl
  · have : ¬ neg = true := by rw [← hneg]; exact hx
    rw [if_neg hx]
    simp [this]

theorem aliceFunded_text :
    aliceFunded.saveToFile = "1 Alice 2\nUSD 1.00\n1000.00\nEUR 1.10\n0.00\n".data := by
  have h1 := fmtFixed2_eval 1 100 false (by norm_num [roundHalfEven]) (by norm_num)
  have h2 := fmtFixed2_eval 1000 100000 false (by norm_num [roundHalfEven]) (by norm_num)
  have h3 := fmtFixed2_eval (11 / 10) 110 false (by norm_num [roundHalfEven]) (by norm_num)
  have h4 := fmtFixed2_eval 0 0 false (by norm_num [roundHalfEven]) (by norm_num)
  simp only [Account.saveToFile, Account.saveFrom, Currency.saveToFile, aliceFunded, usd, eur,
    List.getD_cons_zero, List.getD_cons_succ, h1, h2, h3, h4]
  simp [fmtInt, cstr, natDigits, digitChar]

theorem scanStr_too_long (cap : Nat) (pre : List Char) (s : String) (c : Char) (r : List Char)
    (e : Bool) (hpre : ∀ x ∈ pre, isSpace x = true) (hc : isSpace c = true)
    (hne : s.data ≠ []) (hs : ∀ x ∈ s.data, isSpace x = false)
    (hcap : cap ≤ s.utf8ByteSize) :
    scanStr cap { rest := pre ++ s.data ++ c :: r, eof := e } = Scan.undef := by
  have h1 := skipSpace_item pre s.data (c :: r) e hpre hne hs
  have h2 := takeRun_stop (fun c => !isSpace c) s.data c r e
    (fun x hx => by simp [hs x hx]) (by simp [hc])
  have hemp : (s.data ++ c :: r).isEmpty = false := by simp
  have heta : String.mk s.data = s := rfl
  simp only [scanStr, h1, h2, hemp, heta, if_pos hcap]
  simp

theorem scanHeader_saved (st : Stale) (a : Account) (pre r : List Char) (e : Bool)
    (hpre : ∀ x ∈ pre, isSpace x = true)
    (hid : -2147483648 ≤ a.id ∧ a.id ≤ 2147483647) (howner : IsToken 100 a.owner)
    (hcount : a.currencies.length < 18446744073709551616) :
    scanHeader st { rest := pre ++ (fmtInt a.id ++ [' '] ++ cstr a.owner ++ [' ']
        ++ natDigits a.currencies.length ++ ['\n'] ++ r), eof := e }
      = some (a.id, a.owner, a.currencies.length, { rest := '\n' :: r, eof := e }) := by
  obtain ⟨hne, hs, hcap⟩ := howner
  have h1 := scanInt_fmtInt pre a.id ' '
    (a.owner.data ++ ' ' :: (natDigits a.currencies.length ++ '\n' :: r)) e hpre rfl hid
  have h2 := scanStr_token 100 [' '] a.owner ' '
    (natDigits a.currencies.length ++ '\n' :: r) e space_space rfl hne hs hcap
  have h3 := scanSize_natDigits [' '] a.currencies.length '\n' r e space_space rfl hcount
  simp only [List.append_assoc, List.cons_append, List.nil_append, List.singleton_append]
    at h1 h2 h3
  unfold scanHeader
  rw [cstr_eq a.owner (fun x hx => (hs x hx).2)]
  simp only [List.append_assoc, List.cons_append, List.nil_append, List.singleton_append]
  rw [h1]
  simp only [scanStr_skipSpace, h2, scanSize_skipSpace, h3]

theorem saveToFile_loadFromFile_witness :
    aliceFunded.saveToFile = "1 Alice 2\nUSD 1.00\n1000.00\nEUR 1.10\n0.00\n".data ∧
      ∀ st : Stale, Account.loadFromFile st { rest := [] ++ (aliceFunded.saveToFile ++ []), eof := false }
        = some (aliceFunded.rounded, { rest := ['\n'], eof := false }) :=
  ⟨aliceFunded_text, fun st =>
    (saveToFile_loadFromFile st aliceFunded [] [] false (by simp) (by decide) (by decide)
      (isToken_of_chars 100 "Alice" (by decide) (by rfl) (by decide)) (by decide)
      (by
        intro c hc
        simp only [aliceFunded, List.mem_cons, List.mem_singleton, List.not_mem_nil,
          or_false] at hc
        rcases hc with rfl | rfl
        · exact isToken_of_chars 4 "USD" (by decide) (by rfl) (by decide)
        · exact isToken_of_chars 4 "EUR" (by decide) (by rfl) (by decide))).2.1⟩

/-- C14 fails as stated at two inputs. The account with the currency JPY at
the rate `0.0067` is saved and loaded back with the rate `0.01`, and the load
leaves the last newline of the record unread. The account with the currency
code "USDT" is saved as a record on which `loadFromFile` has undefined
behaviour: the code does not fit the buffer `char currencyCode[4]`. -/
theorem saveToFile_loadFromFile_counterexample :
    (∀ st : Stale, ∃ a f, Account.loadFromFile st { rest := yenAccount.saveToFile, eof := false }
        = some (a, f) ∧
      a.currencies.map (fun c => c.conversionRateToBase) = [1 / 100] ∧
      yenAccount.currencies.map (fun c => c.conversionRateToBase) = [67 / 10000] ∧
      f.rest = ['\n']) ∧
    (∀ st : Stale,
      Account.loadFromFile st { rest := tetherAccount.saveToFile, eof := false } = none) := by
  constructor
  · intro st
    have h := account_load_save st yenAccount [] [] false (by simp) (by decide) (by decide)
      (isToken_of_chars 100 "Eve" (by decide) (by rfl) (by decide)) (by decide)
      (by
        intro c hc
        simp only [yenAccount, List.mem_singleton] at hc
        rw [hc]
        exact isToken_of_chars 4 "JPY" (by decide) (by rfl) (by decide))
    simp only [List.nil_append, List.append_nil] at h
    refine ⟨_, _, h, ?_, ?_, rfl⟩
    · have hf : ⌊(67 / 10000 * 100 : ℚ)⌋ = 0 := by norm_num
      have hr : roundHalfEven (67 / 10000 * 100) = 1 := by
        unfold roundHalfEven
        simp only [hf]
        norm_num
      simp only [Account.rounded, yenAccount, round2, List.map_cons, List.map_nil, hr]
      norm_num
    · simp [yenAccount]
  · intro st
    have hh := scanHeader_saved st tetherAccount []
      (Account.saveFrom tetherAccount.balances 0 tetherAccount.currencies) false (by simp)
      (by decide) (isToken_of_chars 100 "Frank" (by decide) (by rfl) (by decide)) (by decide)
    have hs := scanStr_too_long 4 ['\n'] "USDT" ' '
      (fmtFixed2 1 ++ '\n' :: (fmtFixed2 0 ++ ['\n'])) false space_newline rfl (by decide)
      (by decide) (by decide)
    simp only [List.nil_append, List.append_assoc, List.cons_append, List.singleton_append]
      at hh hs
    have hcs : cstr "USDT" = "USDT".data := by decide
    simp only [Account.loadFromFile, Account.saveToFile, List.append_assoc, List.cons_append,
      List.nil_append, List.singleton_append, hh]
    simp only [tetherAccount, List.length_singleton, Account.loadLoop, Account.saveFrom,
      Currency.saveToFile, Currency.loadFromFile, List.getD_cons_zero, hcs, List.append_assoc,
      List.cons_append, List.nil_append, List.singleton_append, List.append_nil, hs]

theorem skipSpace_only (pre : List Char) (e : Bool) (hpre : ∀ x ∈ pre, isSpace x = true) :
    skipSpace { rest := pre, eof := e } = { rest := [], eof := true } := by
  have h : pre.dropWhile isSpace = [] := by
    rw [List.dropWhile_eq_nil_iff]
    exact hpre
  simp [skipSpace, h]

theorem scanInt_at_end (pre : List Char) (e : Bool) (hpre : ∀ x ∈ pre, isSpace x = true) :
    scanInt { rest := pre, eof := e } = Scan.fail { rest := [], eof := true } := by
  simp [scanInt, skipSpace_only pre e hpre]

theorem scanStr_at_end (cap : Nat) (pre : List Char) (e : Bool)
    (hpre : ∀ x ∈ pre, isSpace x = true) :
    scanStr cap { rest := pre, eof := e } = Scan.fail { rest := [], eof := true } := by
  simp [scanStr, skipSpace_only pre e hpre]

theorem scanDouble_at_end (pre : List Char) (e : Bool) (hpre : ∀ x ∈ pre, isSpace x = true) :
    scanDouble { rest := pre, eof := e } = Scan.fail { rest := [], eof := true } := by
  simp [scanDouble, skipSpace_only pre e hpre]

theorem loadLoop_at_end (st : Stale) (n i : Nat) (acc : Account) :
    Account.loadLoop st n i acc { rest := [], eof := true }
      = some ({ acc with
            currencies := acc.currencies ++ (List.range n).map (fun k =>
              { code := st.currencyCode (i + k), conversionRateToBase := st.rate (i + k) }),
            balances := acc.balances ++ (List.range n).map (fun k => st.balance (i + k)) },
          { rest := [], eof := true }) := by
  induction n generalizing i acc with
  | zero => simp [Account.loadLoop]
  | succ n ih =>
    have h1 := scanStr_at_end 4 [] true (by simp)
    have h2 := scanDouble_at_end [] true (by simp)
    simp only [Account.loadLoop, Currency.loadFromFile, h1, h2, ih, addLoaded_eq]
    simp only [List.range_succ_eq_map, List.map_cons, List.map_map, Nat.add_zero,
      List.append_assoc, List.singleton_append]
    have hfun : ∀ g : Nat → ℚ, ((fun k => g (i + k)) ∘ Nat.succ) = fun k => g (i + 1 + k) := by
      intro g
      funext k
      simp only [Function.comp, Nat.succ_eq_add_one]
      rw [Nat.add_assoc, Nat.add_comm 1 k]
    have hfun2 : ∀ g : Nat → Currency, ((fun k => g (i + k)) ∘ Nat.succ)
        = fun k => g (i + 1 + k) := by
      intro g
      funext k
      simp only [Function.comp, Nat.succ_eq_add_one]
      rw [Nat.add_assoc, Nat.add_comm 1 k]
    rw [hfun, hfun2 (fun j => Currency.mk (st.currencyCode j) (st.rate j))]

theorem loadFromFile_at_end (st : Stale) (pre : List Char) (e : Bool)
    (hpre : ∀ x ∈ pre, isSpace x = true) :
    Account.loadFromFile st { rest := pre, eof := e }
      = some (st.account, { rest := [], eof := true }) := by
  simp only [Account.loadFromFile, scanHeader, scanInt_at_end pre e hpre, loadLoop_at_end]
  simp [Account.new, Stale.account]

theorem addAccount_ok (m : AccountManager) (a : Account) (h : m.accounts.length < MAX_ACCOUNTS) :
    m.addAccount a = { mgr := { accounts := m.accounts ++ [a] }, err := none } := by
  unfold AccountManager.addAccount AccountManager.accountCount
  rw [if_neg (by omega)]

theorem addAccount_full (m : AccountManager) (a : Account) (h : MAX_ACCOUNTS ≤ m.accounts.length) :
    m.addAccount a = { mgr := m, err := some MgrError.maxAccountsReached } := by
  unfold AccountManager.addAccount AccountManager.accountCount
  rw [if_pos h]

theorem mgr_loadLoop_step_ok (stales : Nat → Stale) (k : Nat) (m : AccountManager)
    (f f1 : FileIn) (a : Account) (hf : f.eof = false)
    (hl : Account.loadFromFile (stales k) f = some (a, f1))
    (hc : m.accounts.length < MAX_ACCOUNTS) :
    AccountManager.loadLoop stales k m f
      = AccountManager.loadLoop stales (k + 1) { accounts := m.accounts ++ [a] } f1 := by
  rw [AccountManager.loadLoop]
  simp only [hf, Bool.false_eq_true, if_false, hl]
  split
  · rename_i e he
    rw [addAccount_ok m a hc] at he
    simp at he
  · rw [addAccount_ok m a hc]

theorem mgr_loadLoop_step_full (stales : Nat → Stale) (k : Nat) (m : AccountManager)
    (f f1 : FileIn) (a : Account) (hf : f.eof = false)
    (hl : Account.loadFromFile (stales k) f = some (a, f1))
    (hc : MAX_ACCOUNTS ≤ m.accounts.length) :
    AccountManager.loadLoop stales k m f
      = some { mgr := m, err := some MgrError.maxAccountsReached } := by
  rw [AccountManager.loadLoop]
  simp only [hf, Bool.false_eq_true, if_false, hl]
  split
  · rename_i e he
    rw [addAccount_full m a hc] at he ⊢
    simp only [Option.some.injEq] at he
    rw [he]
  · rename_i he
    rw [addAccount_full m a hc] at he
    simp at he

theorem mgr_loadLoop_done (stales : Nat → Stale) (k : Nat) (m : AccountManager)
    (f : FileIn) (hf : f.eof = true) :
    AccountManager.loadLoop stales k m f = some { mgr := m, err := none } := by
  rw [AccountManager.loadLoop]
  simp [hf]

theorem mgr_load_saved (stales : Nat → Stale) (l : List Account) (k : Nat)
    (m : AccountManager) (pre : List Char) (hl : ∀ a ∈ l, a.Storable)
    (hpre : ∀ x ∈ pre, isSpace x = true) :
    AccountManager.loadLoop stales k m { rest := pre ++ saveAll l, eof := false }
      = if m.accounts.length + l.length < MAX_ACCOUNTS then
          some { mgr := { accounts := m.accounts ++ l.map Account.rounded
                    ++ [(stales (k + l.length)).account] }, err := none }
        else
          some { mgr := { accounts := m.accounts
                    ++ (l.map Account.rounded).take (MAX_ACCOUNTS - m.accounts.length) },
                 err := some MgrError.maxAccountsReached } := by
  induction l generalizing k m pre with
  | nil =>
    have h1 := loadFromFile_at_end (stales k) pre false hpre
    simp only [saveAll, List.append_nil, List.length_nil, Nat.add_zero, List.map_nil,
      List.take_nil]
    by_cases hc : m.accounts.length < MAX_ACCOUNTS
    · rw [if_pos hc, mgr_loadLoop_step_ok stales k m _ _ _ rfl h1 hc,
        mgr_loadLoop_done stales (k + 1) _ _ rfl]
    · rw [if_neg hc, mgr_loadLoop_step_full stales k m _ _ _ rfl h1 (not_lt.mp hc)]
  | cons a rest ih =>
    obtain ⟨hwf, hid, howner, hcount, hcodes⟩ := hl a (List.mem_cons_self a rest)
    have h1 := account_load_save (stales k) a pre (saveAll rest) false hpre hwf hid howner
      hcount hcodes
    have h2 := ih (k + 1) { accounts := m.accounts ++ [a.rounded] } ['\n']
      (fun b hb => hl b (List.mem_cons_of_mem a hb)) space_newline
    simp only [List.singleton_append] at h2
    simp only [saveAll]
    by_cases hc : m.accounts.length < MAX_ACCOUNTS
    · rw [mgr_loadLoop_step_ok stales k m _ _ _ rfl h1 hc, h2]
      simp only [List.length_append, List.length_singleton, List.length_cons, List.map_cons,
        List.append_assoc, List.singleton_append, List.length_nil, Nat.zero_add,
        List.cons_append]
      have e1 : m.accounts.length + 1 + rest.length = m.accounts.length + (rest.length + 1) := by
        omega
      have e2 : k + 1 + rest.length = k + (rest.length + 1) := by omega
      have e3 : MAX_ACCOUNTS - m.accounts.length = (MAX_ACCOUNTS - (m.accounts.length + 1)) + 1 := by
        omega
      rw [e1, e2, e3, List.take_succ_cons]
      simp only [List.nil_append]
    · rw [mgr_loadLoop_step_full stales k m _ _ _ rfl h1 (not_lt.mp hc)]
      have e0 : MAX_ACCOUNTS - m.accounts.length = 0 := by omega
      rw [if_neg (by simp only [List.length_cons]; omega), e0]
      simp

theorem storable_aliceFunded : aliceFunded.Storable :=
  ⟨by decide, by decide, isToken_of_chars 100 "Alice" (by decide) (by rfl) (by decide),
    by decide, by
      intro c hc
      simp only [aliceFunded, List.mem_cons, List.mem_singleton, List.not_mem_nil,
        or_false] at hc
      rcases hc with rfl | rfl
      · exact isToken_of_chars 4 "USD" (by decide) (by rfl) (by decide)
      · exact isToken_of_chars 4 "EUR" (by decide) (by rfl) (by decide)⟩

theorem storable_bob : bob.Storable :=
  ⟨by decide, by decide, isToken_of_chars 100 "Bob" (by decide) (by rfl) (by decide),
    by decide, by
      intro c hc
      simp only [bob, Account.addCurrency, Account.new, List.nil_append, List.cons_append,
        List.mem_cons, List.mem_singleton, List.not_mem_nil, or_false] at hc
      rcases hc with rfl | rfl
      · exact isToken_of_chars 4 "USD" (by decide) (by rfl) (by decide)
      · exact isToken_of_chars 4 "GBP" (by decide) (by rfl) (by decide)⟩

theorem round2_of_hundredths (n : Int) : round2 ((n : ℚ) / 100) = (n : ℚ) / 100 := by
  have h : ((n : ℚ) / 100) * 100 = (n : ℚ) := by ring
  unfold round2 roundHalfEven
  rw [h]
  simp

theorem rounded_aliceFunded : aliceFunded.rounded = aliceFunded := by
  have h1 : round2 1000 = 1000 := by
    have := round2_of_hundredths 100000
    norm_num at this
    exact this
  have h2 : round2 0 = 0 := by
    have := round2_of_hundredths 0
    norm_num at this
    exact this
  have h3 : round2 1 = 1 := by
    have := round2_of_hundredths 100
    norm_num at this
    exact this
  have h4 : round2 (11 / 10) = 11 / 10 := by
    have := round2_of_hundredths 110
    norm_num at this
    exact this
  simp [Account.rounded, aliceFunded, usd, eur, h1, h2, h3, h4]

theorem rounded_bob : bob.rounded = bob := by
  have h2 : round2 0 = 0 := by
    have := round2_of_hundredths 0
    norm_num at this
    exact this
  have h3 : round2 1 = 1 := by
    have := round2_of_hundredths 100
    norm_num at this
    exact this
  have h4 : round2 (13 / 10) = 13 / 10 := by
    have := round2_of_hundredths 130
    norm_num at this
    exact this
  simp [Account.rounded, bob, Account.addCurrency, Account.new, usd, gbp, h2, h3, h4]

/-- C13 (the code on the files it writes). For a ledger of `N ≤ 50` storable
accounts, `loadAccountsFromFile` into an empty ledger of the text that
`saveAccountsToFile` wrote does not yield `N` accounts. With `N < 50` it
returns with `N + 1` accounts: the `N` saved ones (rates and balances rounded
to two decimals) followed by one account built from uninitialised variables,
because `feof` is still false after the last record. With `N = 50` it throws
the capacity exception when it adds that extra account. -/
theorem load_of_saved_ledger (stales : Nat → Stale) (l : List Account)
    (hl : ∀ a ∈ l, a.Storable) (hN : l.length ≤ 50) :
    (l.length < 50 →
      AccountManager.loadAccountsFromFile stales AccountManager.new
          (some (AccountManager.saveAccountsToFile { accounts := l }))
        = some { mgr := { accounts := l.map Account.rounded ++ [(stales l.length).account] },
                 err := none } ∧
      (l.map Account.rounded ++ [(stales l.length).account]).length = l.length + 1) ∧
    (l.length = 50 →
      AccountManager.loadAccountsFromFile stales AccountManager.new
          (some (AccountManager.saveAccountsToFile { accounts := l }))
        = some { mgr := { accounts := l.map Account.rounded },
                 err := some MgrError.maxAccountsReached }) := by
  have h := mgr_load_saved stales l 0 AccountManager.new [] hl (by simp)
  simp only [List.nil_append, AccountManager.new, List.length_nil, Nat.zero_add, Nat.sub_zero]
    at h
  have hmax : MAX_ACCOUNTS = 50 := rfl
  constructor
  · intro hlt
    rw [if_pos (by omega)] at h
    exact ⟨h, by simp⟩
  · intro heq
    rw [if_neg (by omega), List.take_of_length_le (by simp [hmax, heq])] at h
    exact h

theorem load_of_saved_ledger_witness :
    (∀ stales : Nat → Stale,
      AccountManager.loadAccountsFromFile stales AccountManager.new
          (some (AccountManager.saveAccountsToFile { accounts := [] }))
        = some { mgr := { accounts := [(stales 0).account] }, err := none }) ∧
    (∀ stales : Nat → Stale,
      AccountManager.loadAccountsFromFile stales AccountManager.new
          (some (AccountManager.saveAccountsToFile { accounts := [aliceFunded, bob] }))
        = some { mgr := { accounts := [aliceFunded, bob, (stales 2).account] }, err := none }) :=
  ⟨fun stales => ((load_of_saved_ledger stales [] (by simp) (by simp)).1 (by simp)).1,
    fun stales => by
      have h := ((load_of_saved_ledger stales [aliceFunded, bob]
        (by
          intro a ha
          simp only [List.mem_cons, List.mem_singleton, List.not_mem_nil, or_false] at ha
          rcases ha with rfl | rfl
          · exact storable_aliceFunded
          · exact storable_bob) (by simp)).1 (by simp)).1
      simpa [rounded_aliceFunded, rounded_bob] using h⟩

theorem recordsRead_saved (stales : Nat → Stale) (l : List Account) (k : Nat)
    (pre tail : List Char) (hl : ∀ a ∈ l, a.Storable)
    (hpre : ∀ x ∈ pre, isSpace x = true) (hne : l ≠ []) :
    recordsRead stales l.length k { rest := pre ++ (saveAll l ++ tail), eof := false }
      = some (l.map Account.rounded, { rest := '\n' :: tail, eof := false }) := by
  induction l generalizing k pre with
  | nil => exact absurd rfl hne
  | cons a rest ih =>
    obtain ⟨hwf, hid, howner, hcount, hcodes⟩ := hl a (List.mem_cons_self a rest)
    have h1 := account_load_save (stales k) a pre (saveAll rest ++ tail) false hpre hwf hid
      howner hcount hcodes
    simp only [saveAll, List.append_assoc, List.length_cons, recordsRead, Bool.false_eq_true,
      if_false, h1, List.map_cons]
    by_cases hr : rest = []
    · subst hr
      simp [saveAll, recordsRead]
    · have h2 := ih (k + 1) ['\n'] (fun b hb => hl b (List.mem_cons_of_mem a hb))
        space_newline hr
      simp only [List.singleton_append] at h2
      rw [h2]

/-- The forms of number that `%lf` accepts besides the one `%.2f` writes: an
exponent, a hexadecimal number, an infinity and a NaN; an exponent mark
without digits is read and counts for nothing; a point alone is no number. -/
theorem scanDouble_forms :
    scanDouble { rest := "1e2 ".data, eof := false }
        = Scan.ok (some 100) { rest := " ".data, eof := false } ∧
      scanDouble { rest := "0x1p3".data, eof := false }
        = Scan.ok (some 8) { rest := [], eof := true } ∧
      scanDouble { rest := "-2.5E-1x".data, eof := false }
        = Scan.ok (some (-1 / 4)) { rest := "x".data, eof := false } ∧
      scanDouble { rest := "1e+x".data, eof := false }
        = Scan.ok (some 1) { rest := "x".data, eof := false } ∧
      scanDouble { rest := "-inf".data, eof := false }
        = Scan.ok none { rest := [], eof := true } ∧
      scanDouble { rest := "nan".data, eof := false }
        = Scan.ok none { rest := [], eof := false } ∧
      scanDouble { rest := ".".data, eof := false } = Scan.fail { rest := [], eof := true } := by
  refine ⟨?_, ?_, ?_, ?_, rfl, rfl, rfl⟩
  · simp [scanDouble, skipSpace, isSpace, takeSign, scanMantissa, nextIn, takeRun, isDigit,
      takeFraction, scanExponent, dropChar, digitsValue, digitVal, scaled]
    norm_num
  · simp [scanDouble, skipSpace, isSpace, takeSign, scanMantissa, nextIn, takeRun, isDigit,
      isHexDigit, takeFraction, scanExponent, dropChar, digitsValue, digitVal, hexValue, hexVal,
      scaled]
    norm_num
  · simp [scanDouble, skipSpace, isSpace, takeSign, scanMantissa, nextIn, takeRun, isDigit,
      takeFraction, scanExponent, dropChar, digitsValue, digitVal, scaled]
    norm_num
  · simp [scanDouble, skipSpace, isSpace, takeSign, scanMantissa, nextIn, takeRun, isDigit,
      takeFraction, scanExponent, dropChar, digitsValue, digitVal, scaled]


/-- A rate written with an exponent is read as `fscanf` reads it: the line
`USD 1e2` gives the rate `100`. -/
theorem currency_with_exponent (code0 : String) (rate0 : ℚ) :
    Currency.loadFromFile code0 rate0 { rest := "USD 1e2".data, eof := false }
      = some ({ code := "USD", conversionRateToBase := 100 }, { rest := [], eof := true }) := by
  have h1 : scanStr 4 { rest := "USD 1e2".data, eof := false }
      = Scan.ok "USD" { rest := " 1e2".data, eof := false } := rfl
  have h2 : scanDouble (skipSpace { rest := " 1e2".data, eof := false })
      = Scan.ok (some 100) { rest := [], eof := true } := by
    simp [scanDouble, skipSpace, isSpace, takeSign, scanMantissa, nextIn, takeRun, isDigit,
      takeFraction, scanExponent, dropChar, digitsValue, digitVal, scaled]
    norm_num
  simp only [Currency.loadFromFile, h1, h2]

theorem deposit_shape (a : Account) (amount : ℚ) (code : String) :
    (a.deposit amount code).acct.currencies = a.currencies ∧
      (a.deposit amount code).acct.balances.length = a.balances.length := by
  by_cases hamt : amount ≤ 0
  · rw [deposit_nonpos a amount code hamt]
    exact ⟨rfl, rfl⟩
  · cases hf : a.find code with
    | none =>
      rw [deposit_not_found a amount code (not_le.mp hamt) hf]
      exact ⟨rfl, rfl⟩
    | some p =>
      rw [deposit_found a amount code p.1 p.2 (not_le.mp hamt) hf]
      exact ⟨rfl, by simp⟩

theorem withdraw_shape (a : Account) (amount : ℚ) (code : String) :
    (a.withdraw amount code).acct.currencies = a.currencies ∧
      (a.withdraw amount code).acct.balances.length = a.balances.length := by
  cases hf : a.find code with
  | none =>
    rw [withdraw_not_found a amount code hf]
    exact ⟨rfl, rfl⟩
  | some p =>
    by_cases hx : amount * p.2.conversionRateToBase ≤ 0
    · rw [withdraw_nonpos a amount code p.1 p.2 hf hx]
      exact ⟨rfl, rfl⟩
    · by_cases hb : a.balances.getD p.1 0 < amount * p.2.conversionRateToBase
      · rw [withdraw_insufficient a amount code p.1 p.2 hf (not_le.mp hx) hb]
        exact ⟨rfl, rfl⟩
      · rw [withdraw_found a amount code p.1 p.2 hf (not_le.mp hx) (not_lt.mp hb)]
        exact ⟨rfl, by simp⟩

theorem transfer_shape (src tgt : Account) (amount : ℚ) (fromC toC : String) :
    (Account.transfer src tgt amount fromC toC).src.currencies = src.currencies ∧
      (Account.transfer src tgt amount fromC toC).src.balances.length = src.balances.length ∧
      (Account.transfer src tgt amount fromC toC).tgt.currencies = tgt.currencies ∧
      (Account.transfer src tgt amount fromC toC).tgt.balances.length = tgt.balances.length := by
  have hw := withdraw_shape src amount fromC
  have hd := deposit_shape tgt amount toC
  cases he : (src.withdraw amount fromC).err with
  | some e =>
    rw [transfer_withdraw_failed src tgt amount fromC toC e he]
    exact ⟨hw.1, hw.2, rfl, rfl⟩
  | none =>
    rw [transfer_withdraw_ok src tgt amount fromC toC he]
    exact ⟨hw.1, hw.2, hd.1, hd.2⟩

theorem wf_addLoaded (a : Account) (c : Currency) (b : ℚ) (h : a.WF) : (a.addLoaded c b).WF := by
  rw [addLoaded_eq]
  unfold Account.WF at h ⊢
  simp [h]

theorem wf_loadLoop (st : Stale) (n : Nat) :
    ∀ (i : Nat) (acc : Account) (f : FileIn) (r : Account × FileIn), acc.WF →
      Account.loadLoop st n i acc f = some r → r.1.WF := by
  induction n with
  | zero =>
    intro i acc f r hacc h
    simp only [Account.loadLoop, Option.some.injEq] at h
    rw [← h]
    exact hacc
  | succ n ih =>
    intro i acc f r hacc h
    unfold Account.loadLoop at h
    cases hc : Currency.loadFromFile (st.currencyCode i) (st.rate i) f with
    | none =>
      rw [hc] at h
      simp at h
    | some p =>
      rw [hc] at h
      simp only [] at h
      cases hs : scanDouble p.2 with
      | undef =>
        rw [hs] at h
        simp at h
      | fail f2 =>
        rw [hs] at h
        exact ih (i + 1) _ f2 r (wf_addLoaded acc p.1 _ hacc) h
      | ok b f2 =>
        rw [hs] at h
        cases b with
        | none => simp at h
        | some balance => exact ih (i + 1) _ f2 r (wf_addLoaded acc p.1 _ hacc) h

theorem wf_loadFromFile (st : Stale) (f : FileIn) (r : Account × FileIn)
    (h : Account.loadFromFile st f = some r) : r.1.WF := by
  unfold Account.loadFromFile at h
  cases hh : scanHeader st f with
  | none =>
    rw [hh] at h
    simp at h
  | some p =>
    rw [hh] at h
    exact wf_loadLoop st p.2.2.1 0 (Account.new p.1 p.2.1) p.2.2.2 r rfl h

/-- C17. `addCurrency` appends the currency and the balance `0` after the
existing entries, whatever the code of the currency, and changes nothing
else. The number of balances equals the number of currencies in a newly
constructed account, and `addCurrency`, `deposit`, `withdraw`, `transfer` (on
both accounts) and `loadFromFile` keep it so; `deposit`, `withdraw` and
`transfer` leave the currency lists as they are. -/
theorem positional_correspondence (a tgt : Account) (c : Currency) (amount : ℚ)
    (code toCode : String) (id : Int) (owner : String) (st : Stale) (f : FileIn) :
    ((a.addCurrency c).currencies = a.currencies ++ [c] ∧
      (a.addCurrency c).balances = a.balances ++ [0] ∧
      (a.addCurrency c).id = a.id ∧ (a.addCurrency c).owner = a.owner) ∧
    (Account.new id owner).WF ∧
    (a.WF → (a.addCurrency c).WF ∧ (a.deposit amount code).acct.WF ∧
      (a.withdraw amount code).acct.WF ∧ (Account.transfer a tgt amount code toCode).src.WF) ∧
    (tgt.WF → (Account.transfer a tgt amount code toCode).tgt.WF) ∧
    (∀ r, Account.loadFromFile st f = some r → r.1.WF) ∧
    ((a.deposit amount code).acct.currencies = a.currencies ∧
      (a.withdraw amount code).acct.currencies = a.currencies ∧
      (Account.transfer a tgt amount code toCode).src.currencies = a.currencies ∧
      (Account.transfer a tgt amount code toCode).tgt.currencies = tgt.currencies) := by
  have hd := deposit_shape a amount code
  have hw := withdraw_shape a amount code
  have ht := transfer_shape a tgt amount code toCode
  refine ⟨⟨rfl, rfl, rfl, rfl⟩, rfl, ?_, ?_, ?_, ⟨hd.1, hw.1, ht.1, ht.2.2.1⟩⟩
  · intro h
    unfold Account.WF at h ⊢
    refine ⟨by simp [Account.addCurrency, h], ?_, ?_, ?_⟩
    · rw [hd.1, hd.2, h]
    · rw [hw.1, hw.2, h]
    · rw [ht.1, ht.2.1, h]
  · intro h
    unfold Account.WF at h ⊢
    rw [ht.2.2.1, ht.2.2.2, h]
  · intro r h
    exact wf_loadFromFile st f r h

theorem positional_correspondence_witness :
    alice.WF ∧ bob.WF ∧ (alice.addCurrency usd).WF ∧
      (alice.addCurrency usd).currencies = [usd, eur, usd] ∧
      (alice.addCurrency usd).balances = [0, 0, 0] ∧
      (Account.transfer alice bob 200 "USD" "GBP").tgt.WF :=
  have h := positional_correspondence alice bob usd 200 "USD" "GBP" 1 "Alice" stale0
    { rest := [], eof := false }
  ⟨by decide, by decide, (h.2.2.1 (by decide)).1, h.1.1, h.1.2.1, h.2.2.2.1 (by decide)⟩

end Tp1
